import Mathlib

/-!
Verification development for the portfolio backtesting engine
(`src/App.tsx`, which inlines the finance service).

The engine is shallowly embedded: JS numbers become `ℚ` (all arithmetic the
claims depend on is exact field arithmetic; the two genuinely real-valued
primitives `Math.pow` with fractional exponent and `Math.sqrt` are passed as
function parameters `rpow`/`sqrt`, since their float behaviour is not needed
by any claim), JS strings stay `String` but are compared through their
character lists (JS compares by code unit; for these inputs that is
codepoint order), JS `Map`s become insertion-ordered association lists, and
code paths that throw in JS (out-of-range index dereference) are modelled by
`Option` with `none` as the thrown state.
-/

/-! ### JS string primitives -/

/-- Lexicographic strict comparison of character lists by code point,
modelling the JS `<` on strings (code-unit order; identical on the ASCII
date strings this program manipulates). -/
def charListLt : List Char → List Char → Bool
  | [], [] => false
  | [], _ :: _ => true
  | _ :: _, [] => false
  | a :: as, b :: bs => if a < b then true else if b < a then false else charListLt as bs

/-- JS `a < b` on strings. -/
def strLt (s t : String) : Bool := charListLt s.data t.data

/-- JS `a <= b` / `a >= b` on strings (total order, so `a <= b ↔ ¬ b < a`). -/
def strLe (s t : String) : Bool := !(strLt t s)

/-- Characters stripped by `String.prototype.trim`.  JS also strips further
Unicode whitespace; only these occur in the inputs considered here. -/
def isJsSpace (c : Char) : Bool := c = ' ' || c = '\t' || c = '\n' || c = '\r'

/-- Model of `String.prototype.trim`: drop whitespace from both ends. -/
def jsTrim (s : String) : String :=
  ⟨((s.data.dropWhile isJsSpace).reverse.dropWhile isJsSpace).reverse⟩

/-- Numeric value of a decimal digit character. -/
def digitVal (c : Char) : ℕ := c.toNat - 48

/-- Value of a digit string read in base 10 (the groups fed to `parseInt`). -/
def digitsToNat (l : List Char) : ℕ := l.foldl (fun acc c => acc * 10 + digitVal c) 0

/-- Model of `padStart(2, '0')`. -/
def pad2 (l : List Char) : List Char := List.replicate (2 - l.length) '0' ++ l

/-- Split a character list on a separator, modelling `String.split(sep)`
for the single-character separators used by the date regexes. -/
def splitOnChar (sep : Char) : List Char → List (List Char)
  | [] => [[]]
  | c :: rest =>
    let r := splitOnChar sep rest
    if c = sep then [] :: r
    else
      match r with
      | g :: gs => (c :: g) :: gs
      | [] => [[c]]

/-! ### Calendar arithmetic (model of `new Date(s)` for ISO date-only strings) -/

/-- Gregorian leap-year test. -/
def isLeapYear (y : ℤ) : Bool := (y % 4 == 0 && !(y % 100 == 0)) || y % 400 == 0

/-- Days in month `m` (1-indexed) of year `y`. -/
def daysInMonth (y : ℤ) (m : ℕ) : ℕ :=
  if m = 2 then (if isLeapYear y then 29 else 28)
  else if m = 4 ∨ m = 6 ∨ m = 9 ∨ m = 11 then 30 else 31

/-- Days since the Unix epoch of the civil date `y-m-d` (standard
days-from-civil algorithm; `m` is 1-indexed). -/
def daysFromCivil (y : ℤ) (m d : ℕ) : ℤ :=
  let y2 : ℤ := if m ≤ 2 then y - 1 else y
  let era : ℤ := Int.fdiv y2 400
  let yoe : ℤ := y2 - era * 400
  let mp : ℤ := ((m : ℤ) + 9) % 12
  let doy : ℤ := (153 * mp + 2) / 5 + (d : ℤ) - 1
  let doe : ℤ := yoe * 365 + yoe / 4 - yoe / 100 + doy
  era * 146097 + doe - 719468

/-- Shape test for the canonical pattern `^\d{4}-\d{2}-\d{2}$`. -/
def matchYMDShape : List Char → Bool
  | [y1, y2, y3, y4, h1, m1, m2, h2, d1, d2] =>
    y1.isDigit && y2.isDigit && y3.isDigit && y4.isDigit && h1 = '-' &&
    m1.isDigit && m2.isDigit && h2 = '-' && d1.isDigit && d2.isDigit
  | _ => false

/-- Parse a canonical-shaped string into year, month (1-indexed) and day,
validating the calendar ranges exactly as `new Date("YYYY-MM-DD")` does
(out-of-range components give an Invalid Date, modelled `none`). -/
def parseYMDvalid (s : String) : Option (ℤ × ℕ × ℕ) :=
  match s.data with
  | [y1, y2, y3, y4, h1, m1, m2, h2, d1, d2] =>
    if y1.isDigit && y2.isDigit && y3.isDigit && y4.isDigit && h1 = '-' &&
        m1.isDigit && m2.isDigit && h2 = '-' && d1.isDigit && d2.isDigit then
      let y : ℕ := digitsToNat [y1, y2, y3, y4]
      let m : ℕ := digitsToNat [m1, m2]
      let d : ℕ := digitsToNat [d1, d2]
      if 1 ≤ m ∧ m ≤ 12 ∧ 1 ≤ d ∧ d ≤ daysInMonth (y : ℤ) m then some ((y : ℤ), m, d)
      else none
    else none
  | _ => none

/-- Model of `new Date(s).getTime()` for the canonical date strings this
program produces, scaled to days (the source divides the millisecond
difference by 86400000).  `none` models `NaN` (Invalid Date). -/
def jsDateParse (s : String) : Option ℤ :=
  (parseYMDvalid s).map (fun ymd => daysFromCivil ymd.1 ymd.2.1 ymd.2.2)

/-- Model of `(new Date(s).getFullYear(), new Date(s).getMonth())` — month is
0-indexed.  The engine feeds it canonical dates; for an Invalid Date the JS
getters yield `NaN`, collapsed here to `(0, 0)` (no claim reaches that case).
Date-only ISO strings parse as UTC midnight; the UTC field values are used. -/
def jsDateFields (s : String) : ℤ × ℕ :=
  match parseYMDvalid s with
  | some (y, m, _) => (y, m - 1)
  | none => (0, 0)

/-! ### `normalizeDate` (`src/App.tsx` lines 817–851) -/

/-- Branch for `^(\d{1,2})\/(\d{1,2})\/(\d{2,4})$` (US `M/D/YYYY` or `M/D/YY`;
2-digit years below 50 map to 2000s, others to 1900s), producing the
template `${y}-${m}-${d}` after padding. -/
def matchMDY (l : List Char) : Option (List Char) :=
  match splitOnChar '/' l with
  | [m, d, y] =>
    if m.all Char.isDigit && d.all Char.isDigit && y.all Char.isDigit &&
        1 ≤ m.length && m.length ≤ 2 && 1 ≤ d.length && d.length ≤ 2 &&
        2 ≤ y.length && y.length ≤ 4 then
      let m2 := pad2 m
      let d2 := pad2 d
      let y2 := if y.length = 2 then
          (if digitsToNat y < 50 then '2' :: '0' :: y else '1' :: '9' :: y)
        else y
      some (y2 ++ '-' :: m2 ++ '-' :: d2)
    else none
  | _ => none

/-- Branch for `^(\d{1,2})\.(\d{1,2})\.(\d{4})$` (`D.M.YYYY`), producing
`${y}-${pad2 m}-${pad2 d}`. -/
def matchDMY (l : List Char) : Option (List Char) :=
  match splitOnChar '.' l with
  | [d, m, y] =>
    if d.all Char.isDigit && m.all Char.isDigit && y.all Char.isDigit &&
        1 ≤ d.length && d.length ≤ 2 && 1 ≤ m.length && m.length ≤ 2 &&
        y.length = 4 then
      some (y ++ '-' :: pad2 m ++ '-' :: pad2 d)
    else none
  | _ => none

/-- Decimal digits of a natural number (fuel-bounded auxiliary). -/
def natToCharsAux : ℕ → ℕ → List Char
  | _, 0 => []
  | n, fuel + 1 => if n = 0 then [] else natToCharsAux (n / 10) fuel ++ [Char.ofNat (48 + n % 10)]

/-- Decimal rendering of a natural number, for the fallback formatting. -/
def natToChars (n : ℕ) : List Char := if n = 0 then ['0'] else natToCharsAux n 10

/-- Template `${year}-${month}-${day}` with two-digit padding of month and
day, as built by the generic-parse fallback of `normalizeDate`.  Negative
years do not occur in scope, so the year is rendered via `toNat`. -/
def formatYMD (y : ℤ) (m d : ℕ) : String :=
  ⟨natToChars y.toNat ++ '-' :: pad2 (natToChars m) ++ '-' :: pad2 (natToChars d)⟩

/-- `normalizeDate` (`src/App.tsx` 817–851).  The final branch of the source
calls `new Date(s)` on an arbitrary string, whose parsing is
implementation-defined in JS; it is therefore a parameter `dateFallback`
returning `getFullYear`/`getMonth` (0-indexed)/`getDate` components, or
`none` for an Invalid Date.  The `dateStr == null` guard is outside the
model (inputs here are strings). -/
def normalizeDate (dateFallback : String → Option (ℤ × ℕ × ℕ)) (dateStr : String) :
    Option String :=
  let s := jsTrim dateStr
  if matchYMDShape s.data then some s
  else
    match matchMDY s.data with
    | some r => some ⟨r⟩
    | none =>
      match matchDMY s.data with
      | some r => some ⟨r⟩
      | none =>
        match dateFallback s with
        | some (y, m0, d) => some (formatYMD y (m0 + 1) d)
        | none => none

/-! ### Frequency detector (`detectAnnualizationFactor`, lines 862–885) -/

/-- Day gaps between consecutive dates, keeping only positive ones.  The
source computes `(t2 − t1) / 86400000` from millisecond timestamps; our
parse is already in days.  An unparseable date yields a `NaN` gap, which
fails the `> 0` test and is skipped, exactly like the `none` branch here. -/
def dateGaps : List String → List ℚ
  | [] => []
  | [_] => []
  | a :: b :: rest =>
    let restGaps := dateGaps (b :: rest)
    match jsDateParse a, jsDateParse b with
    | some t1, some t2 =>
      let diffDays : ℚ := ((t2 - t1 : ℤ) : ℚ)
      if 0 < diffDays then diffDays :: restGaps else restGaps
    | _, _ => restGaps

/-- `detectAnnualizationFactor` (lines 862–885): classify the sampling
frequency from the median gap over the first 100 samples. -/
def detectAnnualizationFactor (dates : List String) : ℕ :=
  if dates.length < 3 then 252
  else
    let gaps := dateGaps (dates.take 100)
    if gaps.length = 0 then 252
    else
      let sorted := gaps.insertionSort (fun a b => a ≤ b)
      let medianGap := sorted.getD (gaps.length / 2) 0
      if medianGap ≤ 5 then 252
      else if medianGap ≤ 12 then 52
      else if medianGap ≤ 45 then 12
      else if medianGap ≤ 120 then 4
      else 1

/-! ### Statistics engine (`calculateStats`, lines 887–1024) -/

/-- The stats record returned by `calculateStats`.  The two nested JS record
maps (`monthlyReturns: year → month → r` and the year-keyed maps) are
flattened to association lists in first-insertion order. -/
structure PortfolioStats where
  cagr : ℚ
  sharpe : ℚ
  sortino : ℚ
  maxDrawdown : ℚ
  calmar : ℚ
  totalReturn : ℚ
  finalBalance : ℚ
  bestYear : ℚ
  worstYear : ℚ
  annualReturns : List (ℤ × ℚ)
  monthlyReturns : List ((ℤ × ℤ) × ℚ)
  annualMaxDrawdowns : List (ℤ × ℚ)

/-- The all-zero record returned for curves of fewer than 2 points. -/
def zeroStats : PortfolioStats := ⟨0, 0, 0, 0, 0, 0, 0, 0, 0, [], [], []⟩

/-- Model of `parseInt` on the groups obtained by splitting a canonical
date on `-`: the digit groups parse to their value; any other input gives
`NaN` in JS, collapsed here to 0 (unreachable for canonical dates, which is
all that every claim exercises). -/
def jsParseIntList (l : List Char) : ℤ :=
  if l ≠ [] ∧ l.all Char.isDigit then (digitsToNat l : ℤ) else 0

/-- `const [yStr, mStr] = dates[i].split('-')` followed by
`parseInt(yStr)` and `parseInt(mStr) - 1`.  The source keys the month map
by the template string of this pair; the pair itself is the key here
(lossless for the nonnegative years canonical dates produce). -/
def splitYM (d : String) : ℤ × ℤ :=
  let groups := splitOnChar '-' d.data
  (jsParseIntList (groups.headD []), jsParseIntList (groups.tail.headD []) - 1)

/-- `parseInt(d.split('-')[0])`, the year key of the annual maps. -/
def splitYear (d : String) : ℤ := jsParseIntList ((splitOnChar '-' d.data).headD [])

/-- `if (!map.has(key)) map.set(key, []); map.get(key).push(r)` on a JS
`Map`: append to the bucket of `k`, creating it at the end in insertion
order. -/
def bucketPush {κ : Type} [DecidableEq κ] (k : κ) (r : ℚ) :
    List (κ × List ℚ) → List (κ × List ℚ)
  | [] => [(k, [r])]
  | (k2, rs) :: rest =>
    if k2 = k then (k2, rs ++ [r]) :: rest else (k2, rs) :: bucketPush k r rest

/-- `rets.reduce((acc, r) => acc * (1 + r), 1) - 1`: compounded return. -/
def prodRets (rs : List ℚ) : ℚ := rs.foldl (fun acc r => acc * (1 + r)) 1 - 1

/-- The running-peak drawdown loop shared by the overall and intra-year max
drawdown computations (lines 955–963 and 977–983 are textually identical).
`peak` starts at `-Infinity`, modelled `none`: the first value always
becomes the peak. -/
def ddLoop : List ℚ → Option ℚ → ℚ → ℚ
  | [], _, maxDD => maxDD
  | v :: rest, peak, maxDD =>
    let peak2 : ℚ :=
      match peak with
      | none => v
      | some p => if p < v then v else p
    let dd := if 0 < peak2 then (peak2 - v) / peak2 else 0
    ddLoop rest (some peak2) (if maxDD < dd then dd else maxDD)

/-- Max drawdown of a value sequence. -/
def maxDrawdownOf (values : List ℚ) : ℚ := ddLoop values none 0

/-- The `for (i = 1; i < equityCurve.length; i++)` loop: per-period simple
returns paired with the month key of `dates[i]`.  Called with the curve
tail and `dates.tail`.  When the dates run out, the JS code dereferences
`undefined` and throws: modelled `none`. -/
def statsReturnsAux : ℚ → List ℚ → List String → Option (List (ℚ × (ℤ × ℤ)))
  | _, [], _ => some []
  | prev, curr :: rest, dates =>
    match dates with
    | [] => none
    | d :: dtail =>
      let r := if 0 < prev then (curr - prev) / prev else 0
      match statsReturnsAux curr rest dtail with
      | none => none
      | some t => some ((r, splitYM d) :: t)

/-- The `dates.forEach((d, idx) => ...)` loop for `idx ≥ 1`: year key,
`equityCurve[idx]` and `dailyReturns[idx - 1]` walked in lockstep.  If the
dates outnumber the curve, the JS code reads `undefined` into its buckets
(NaN-polluted stats, no throw); that divergent corner is modelled as
failure — no claim distinguishes the two, and no claim reaches it. -/
def yearTriple : List String → List ℚ → List ℚ → Option (List (ℤ × ℚ × ℚ))
  | [], _, _ => some []
  | d :: ds, curve, rets =>
    match curve, rets with
    | v :: ctail, r :: rtail =>
      match yearTriple ds ctail rtail with
      | none => none
      | some t => some ((splitYear d, v, r) :: t)
    | _, _ => none

/-- `calculateStats` (lines 887–1024).  `rpow` models `Math.pow` (used only
with the fractional CAGR exponent) and `sqrt` models `Math.sqrt`; both are
parameters because no claim depends on their values.  The debug logging of
the source is side-effect free and omitted.  The computed-but-unused
`startDate`/`endDate` locals (lines 969–970) are dead code and omitted. -/
def calculateStats (rpow : ℚ → ℚ → ℚ) (sqrt : ℚ → ℚ) (equityCurve : List ℚ)
    (dates : List String) : Option PortfolioStats :=
  if equityCurve.length < 2 then some zeroStats
  else
    match equityCurve, dates with
    | v0 :: vrest, d0 :: dtail =>
      (match statsReturnsAux v0 vrest dtail with
       | none => none
       | some rks =>
         let periodsPerYear : ℚ := (detectAnnualizationFactor dates : ℚ)
         let dailyReturns := rks.map (fun rk => rk.1)
         let monthMap := rks.foldl (fun mm rk => bucketPush rk.2 rk.1 mm) []
         let monthlyReturns := monthMap.map (fun km => (km.1, prodRets km.2))
         match yearTriple dtail vrest dailyReturns with
         | none => none
         | some trips =>
           let yearValues :=
             ((splitYear d0, v0) :: trips.map (fun t => (t.1, t.2.1))).foldl
               (fun m yv => bucketPush yv.1 yv.2 m) []
           let yearRets := trips.foldl (fun m t => bucketPush t.1 t.2.2 m) []
           let annualReturns := yearRets.map (fun ykv => (ykv.1, prodRets ykv.2))
           let annualMaxDrawdowns := yearValues.map (fun ykv => (ykv.1, maxDrawdownOf ykv.2))
           let firstValue := v0
           let lastValue := (v0 :: vrest).getLastD 0
           let tradingDays := dailyReturns.length
           let years : ℚ := max ((tradingDays : ℚ) / periodsPerYear) (1 / 10)
           let cagr := if 0 < firstValue then rpow (lastValue / firstValue) (1 / years) - 1 else 0
           let maxDrawdown := maxDrawdownOf (v0 :: vrest)
           let avgReturn := dailyReturns.sum / (tradingDays : ℚ)
           let sumSqDiff := (dailyReturns.map (fun b => (b - avgReturn) ^ 2)).sum
           let stdDev := if 1 < tradingDays then sqrt (sumSqDiff / ((tradingDays : ℚ) - 1)) else 0
           let downsideReturns := dailyReturns.filter (fun r => r < 0)
           let annualizationFactor := sqrt periodsPerYear
           let sharpe := if 0 < stdDev then avgReturn / stdDev * annualizationFactor else 0
           let sortino :=
             if downsideReturns.length = 0 then 0
             else
               let downsideStdDev :=
                 sqrt ((downsideReturns.map (fun b => b ^ 2)).sum / (downsideReturns.length : ℚ))
               if 0 < downsideStdDev then avgReturn / downsideStdDev * annualizationFactor else 0
           let calmar := if 0 < maxDrawdown then cagr / maxDrawdown else 0
           let annualValues := annualReturns.map (fun kv => kv.2)
           let bestYear := match annualValues with | [] => 0 | h :: t => t.foldl max h
           let worstYear := match annualValues with | [] => 0 | h :: t => t.foldl min h
           let totalReturn := if 0 < firstValue then (lastValue - firstValue) / firstValue else 0
           some ⟨cagr, sharpe, sortino, maxDrawdown, calmar, totalReturn, lastValue,
                 bestYear, worstYear, annualReturns, monthlyReturns, annualMaxDrawdowns⟩)
    | _, _ => none

/-! ### Correlation engine (`calculatePairwiseCorrelation`, lines 1027–1063) -/

/-- `Map.get` on an insertion-ordered association list (first match). -/
def jsMapGet : List (String × ℚ) → String → Option ℚ
  | [], _ => none
  | (k2, v) :: rest, k => if k2 = k then some v else jsMapGet rest k

/-- The return-extraction loop of the correlation engine: simple returns of
both series at the same index, kept only where both previous values are
positive. -/
def corrRets : List ℚ → List ℚ → List (ℚ × ℚ)
  | a1 :: a2 :: arest, b1 :: b2 :: brest =>
    let rest := corrRets (a2 :: arest) (b2 :: brest)
    if 0 < a1 ∧ 0 < b1 then ((a2 - a1) / a1, (b2 - b1) / b1) :: rest else rest
  | _, _ => []

/-- The sorted key intersection of the two series (lines 1029–1031): JS
`Set`s of the keys (dedup in first-insertion order), filtered to common
dates, sorted ascending. -/
def corrIntersection (mapA mapB : List (String × ℚ)) : List String :=
  ((mapA.map (fun p => p.1)).dedup.filter
      (fun d => d ∈ (mapB.map (fun p => p.1)).dedup)).insertionSort
    (fun a b => strLe a b = true)

/-- `calculatePairwiseCorrelation` (lines 1027–1063).  `sqrt` models
`Math.sqrt`.  The non-null assertion `map.get(d)!` always succeeds because
`d` comes from the key intersection; `getD 0` realises it. -/
def calculatePairwiseCorrelation (sqrt : ℚ → ℚ) (mapA mapB : List (String × ℚ)) :
    Option ℚ :=
  let intersection := corrIntersection mapA mapB
  if intersection.length < 2 then none
  else
    let seriesA := intersection.map (fun d => (jsMapGet mapA d).getD 0)
    let seriesB := intersection.map (fun d => (jsMapGet mapB d).getD 0)
    let rets := corrRets seriesA seriesB
    let retA := rets.map (fun p => p.1)
    let retB := rets.map (fun p => p.2)
    if retA.length < 2 then none
    else
      let n : ℚ := (retA.length : ℚ)
      let sumA := retA.sum
      let sumB := retB.sum
      let sumAsq := (retA.map (fun x => x * x)).sum
      let sumBsq := (retB.map (fun x => x * x)).sum
      let pSum := (rets.map (fun p => p.1 * p.2)).sum
      let num := pSum - sumA * sumB / n
      let den := sqrt ((sumAsq - sumA * sumA / n) * (sumBsq - sumB * sumB / n))
      if den = 0 then some 0 else some (num / den)

/-! ### Strategies and the master timeline (`parsedTimeline`, lines 206–252) -/

/-- A strategy: identity plus its `Map<string, number>` of date → equity
level, as an insertion-ordered association list.  Display metadata (name,
color, `isBuiltIn`, price, `infoUrl`) is never read by the engine and is
omitted. -/
structure Strategy where
  id : String
  data : List (String × ℚ)

/-- `allocations[s.id] || 0`: record lookup with `undefined` (and falsy `0`)
collapsing to `0`. -/
def jsAlloc (allocations : List (String × ℚ)) (id : String) : ℚ :=
  (jsMapGet allocations id).getD 0

/-- `Set.add`: append if not already present (JS `Set` keeps first-insertion
order). -/
def setAdd (l : List String) (d : String) : List String := if d ∈ l then l else l ++ [d]

/-- The `maxStartDate` accumulator of `parsedTimeline`: the latest
first-stored key (`Array.from(s.data.keys())[0]`) among active strategies
with data, starting from `''`.  The source computes this in the same
`forEach` that collects the date set; the two accumulators are independent,
so they are modelled as two folds over the same strategy list. -/
def timelineAnchor (strategies : List Strategy) (allocations : List (String × ℚ)) : String :=
  strategies.foldl
    (fun acc s =>
      if 0 < jsAlloc allocations s.id then
        match s.data.map (fun p => p.1) with
        | [] => acc
        | d0 :: _ => if strLt acc d0 then d0 else acc
      else acc) ""

/-- The `allDatesSet` accumulator: union of the active strategies' keys in
first-insertion order. -/
def timelineDatesSet (strategies : List Strategy) (allocations : List (String × ℚ)) :
    List String :=
  strategies.foldl
    (fun acc s =>
      if 0 < jsAlloc allocations s.id then (s.data.map (fun p => p.1)).foldl setAdd acc
      else acc) []

/-- A master-timeline entry.  The `timestamp` field of the source is only
consumed by the chart projection and is omitted. -/
structure TLPoint where
  date : String
  month : ℕ
  year : ℤ

/-- Default entry for index lookups with a bound in scope. -/
def defaultTLPoint : TLPoint := ⟨"", 0, 0⟩

/-- `parsedTimeline` (lines 206–252): filter the active-date set to dates
`≥ maxStartDate`, sort ascending, attach `getMonth`/`getFullYear`.  The
`loading || strategies.length === 0` early return yields the same empty
list this definition produces for an empty strategy list. -/
def parsedTimeline (strategies : List Strategy) (allocations : List (String × ℚ)) :
    List TLPoint :=
  let maxStartDate := timelineAnchor strategies allocations
  let allDates := timelineDatesSet strategies allocations
  ((allDates.filter (fun d => strLe maxStartDate d)).insertionSort
      (fun a b => strLe a b = true)).map
    (fun date => ⟨date, (jsDateFields date).2, (jsDateFields date).1⟩)

/-! ### Rebalancing simulator (`simulation`, lines 255–439) -/

/-- JS `x || y` where `x` is a number or `undefined`. -/
def jsOrQ (a : Option ℚ) (b : ℚ) : ℚ :=
  match a with
  | some v => if v = 0 then b else v
  | none => b

/-- Initial retained price of a strategy (lines 272–276): price at the first
timeline date, else the first entry at a later date, else (or if the found
price is falsy `0`) the fallback `1`. -/
def initLastPrice (t0 : String) (s : Strategy) : ℚ :=
  let p :=
    match jsMapGet s.data t0 with
    | some v => some v
    | none => (s.data.find? (fun e => strLe t0 e.1)).map (fun e => e.2)
  jsOrQ p 1

/-- `spyStartPrice` (lines 285–286): `spyData?.get(t0) || (spyData ?
entries.find(d >= t0)?.[1] : 0) || 0`. -/
def spyStartPrice (spyData : Option (List (String × ℚ))) (t0 : String) : ℚ :=
  jsOrQ (spyData.bind (fun m => jsMapGet m t0))
    (jsOrQ (spyData.bind (fun m => (m.find? (fun e => strLe t0 e.1)).map (fun e => e.2))) 0)

/-- The run-constant part of a simulation: active strategies (in strategy
order), their target weights, the rebalancing policy, the benchmark data
and its scaling, and the initial balance. -/
structure SimConfig where
  activeStrategies : List Strategy
  weights : List ℚ
  totalAllocatedWeight : ℚ
  freq : String
  spyData : Option (List (String × ℚ))
  spyStart : ℚ
  spyFactor : ℚ
  startBalance : ℚ

/-- Lines 258–290: derive the run configuration from the raw inputs.
`activeIds` is `Object.keys(allocations).filter(id => alloc[id] > 0)` and
strategies are kept when their id occurs in it. -/
def mkConfig (strategies : List Strategy) (allocations : List (String × ℚ))
    (rebalanceFreq : String) (spyData : Option (List (String × ℚ)))
    (t0 : String) (startBalance : ℚ) : SimConfig :=
  let activeIds := (allocations.filter (fun p => 0 < p.2)).map (fun p => p.1)
  let activeStrategies := strategies.filter (fun s => s.id ∈ activeIds)
  let strategyWeights := activeStrategies.map (fun s => jsAlloc allocations s.id / 100)
  let totalAllocatedWeight := strategyWeights.sum
  let sStart := spyStartPrice spyData t0
  ⟨activeStrategies, strategyWeights, totalAllocatedWeight, rebalanceFreq, spyData,
   sStart, if 0 < sStart then startBalance / sStart else 0, startBalance⟩

/-- The per-run mutable state.  The appended equity lists grow by one entry
per simulated day, so `combinedEquityIdx[i-1]` of the source is always the
last element of `combined` here (the list has exactly `i` entries when day
`i` is processed), and likewise for `twr` and each strategy equity list. -/
structure SimState where
  stratBalances : List ℚ
  cash : ℚ
  lastPrices : List ℚ
  combined : List ℚ
  twr : List ℚ
  stratEquities : List (List ℚ)
  spyEquity : List ℚ
  spyLastPrice : ℚ
  curMonth : ℕ
  curYear : ℤ

/-- Day-0 initialization (lines 266–293). -/
def simInit (cfg : SimConfig) (t0 : TLPoint) : SimState :=
  ⟨cfg.weights.map (fun w => cfg.startBalance * w),
   cfg.startBalance * (1 - cfg.totalAllocatedWeight),
   cfg.activeStrategies.map (initLastPrice t0.date),
   [cfg.startBalance],
   [100],
   cfg.weights.map (fun w => [cfg.startBalance * w]),
   if 0 < cfg.spyStart then [cfg.startBalance] else [],
   if 0 < cfg.spyStart then cfg.spyStart else 0,
   t0.month, t0.year⟩

/-- The inner `for (j = 0; ...)` loop of a simulated day (lines 303–316):
per-strategy price lookup with stale-price carry (`?? lastPrices[j]` keeps a
literal `0`), simple return guarded by `lastPrice > 0`, drifted balance,
independent equity push, and the running strategy total.  Returns
(balances, last prices, strategy equities, dailyTotalStrategies). -/
def dayUpdate (date : String) :
    List Strategy → List ℚ → List ℚ → List (List ℚ) →
    List ℚ × List ℚ × List (List ℚ) × ℚ
  | s :: srest, lp :: lprest, bal :: balrest, eq :: eqrest =>
    let currPrice := (jsMapGet s.data date).getD lp
    let dailyRet := if 0 < lp then (currPrice - lp) / lp else 0
    let newBal := bal * (1 + dailyRet)
    let newEq := eq ++ [eq.getLastD 0 * (1 + dailyRet)]
    let rest := dayUpdate date srest lprest balrest eqrest
    ⟨newBal :: rest.1, currPrice :: rest.2.1, newEq :: rest.2.2.1, newBal + rest.2.2.2⟩
  | _, _, _, _ => ([], [], [], 0)

/-- The rebalancing decision (lines 329–341).  The explicit `'none'` branch
and the implicit fall-through both leave the flag `false`. -/
def shouldRebalance (freq : String) (month : ℕ) (year : ℤ) (curMonth : ℕ) (curYear : ℤ) :
    Bool :=
  if freq = "daily" then true
  else if freq = "monthly" then month != curMonth
  else if freq = "quarterly" then month != curMonth && month % 3 == 0
  else if freq = "annually" then year != curYear
  else false

/-- The trigger computed at a day, from the state's period markers. -/
def stepTrigger (cfg : SimConfig) (st : SimState) (pt : TLPoint) : Bool :=
  shouldRebalance cfg.freq pt.month pt.year st.curMonth st.curYear

/-- One simulated day (lines 296–367) with the rebalancing decision passed
explicitly.  The conditional period-marker updates (lines 344–345) net to
plain assignment of the day's month and year.  The TWR index reads the
previous combined value as the last pushed entry. -/
def simStepCore (cfg : SimConfig) (st : SimState) (pt : TLPoint) (shouldReb : Bool) :
    SimState :=
  let upd := dayUpdate pt.date cfg.activeStrategies st.lastPrices st.stratBalances st.stratEquities
  let dailyTotalBeforeFlows := upd.2.2.2 + st.cash
  let prevTotalBalance := st.combined.getLastD 0
  let portfolioDailyRet :=
    if 0 < prevTotalBalance then (dailyTotalBeforeFlows - prevTotalBalance) / prevTotalBalance
    else 0
  let newTwr := st.twr ++ [st.twr.getLastD 0 * (1 + portfolioDailyRet)]
  let newTotalBalance := dailyTotalBeforeFlows
  let rebBals := if shouldReb then cfg.weights.map (fun w => newTotalBalance * w) else upd.1
  let rebCash := if shouldReb then newTotalBalance * (1 - cfg.totalAllocatedWeight) else st.cash
  let spy :=
    match cfg.spyData with
    | some m =>
      let last2 :=
        match jsMapGet m pt.date with
        | some sPrice => sPrice
        | none => st.spyLastPrice
      (last2, st.spyEquity ++ [last2 * cfg.spyFactor])
    | none => (st.spyLastPrice, st.spyEquity)
  ⟨rebBals, rebCash, upd.2.1, st.combined ++ [newTotalBalance], newTwr, upd.2.2.1,
   spy.2, spy.1, pt.month, pt.year⟩

/-- One simulated day with the trigger computed from the policy. -/
def simStep (cfg : SimConfig) (st : SimState) (pt : TLPoint) : SimState :=
  simStepCore cfg st pt (stepTrigger cfg st pt)

/-- The state trace of a run: entry `i` is the state after day `i` (entry 0
is the day-0 initialization).  The source's `for` loop is the fold whose
intermediate states this trace records. -/
def simStates (cfg : SimConfig) (tl : List TLPoint) : List SimState :=
  match tl with
  | [] => []
  | t0 :: rest => List.scanl (simStep cfg) (simInit cfg t0) rest

/-- The rebalancing decisions of a run: entry `i - 1` is the trigger
evaluated on day `i` (with the state carried into that day). -/
def simTriggers (cfg : SimConfig) (tl : List TLPoint) : List Bool :=
  match tl with
  | [] => []
  | _ :: rest => ((simStates cfg tl).zip rest).map (fun p => stepTrigger cfg p.1 p.2)

/-- The returned simulation record.  The down-sampled `chartData` projection
is display-only (explicitly outside the correctness surface) and omitted. -/
structure SimResult where
  dates : List String
  combinedEquity : List ℚ
  strategyEquities : List (List ℚ)
  spyEquity : List ℚ
  stats : PortfolioStats
  spyStats : Option PortfolioStats

/-- `simulation` (lines 255–439).  A thrown stats computation crashes the
memo in JS; that is the `none` propagation of the main stats call.  The
benchmark stats call cannot throw in JS (its curve is never longer than the
dates), and its NaN-polluted corner (benchmark curve shorter than dates) is
collapsed to a `none` field without failing the run; no claim reads it.
The `totalReturn` division is unguarded in the source (NaN for a zero
start balance); `ℚ` division yields 0 there — also outside every claim. -/
def simulation (rpow : ℚ → ℚ → ℚ) (sqrt : ℚ → ℚ) (strategies : List Strategy)
    (allocations : List (String × ℚ)) (initialBalance : ℚ) (rebalanceFreq : String)
    (spyData : Option (List (String × ℚ))) (tl : List TLPoint) : Option SimResult :=
  if tl.length < 2 then none
  else
    let activeIds := (allocations.filter (fun p => 0 < p.2)).map (fun p => p.1)
    if activeIds.length = 0 then none
    else
      match tl with
      | [] => none
      | t0 :: _ =>
        let cfg := mkConfig strategies allocations rebalanceFreq spyData t0.date initialBalance
        let final := (simStates cfg tl).getLastD (simInit cfg t0)
        let datesOnly := tl.map (fun p => p.date)
        match calculateStats rpow sqrt final.twr datesOnly with
        | none => none
        | some stats0 =>
          let finalBalance := final.combined.getLastD 0
          let totalReturn := (finalBalance - cfg.startBalance) / cfg.startBalance
          let stats : PortfolioStats :=
            ⟨stats0.cagr, stats0.sharpe, stats0.sortino, stats0.maxDrawdown, stats0.calmar,
             totalReturn, finalBalance, stats0.bestYear, stats0.worstYear,
             stats0.annualReturns, stats0.monthlyReturns, stats0.annualMaxDrawdowns⟩
          let spyStats := cfg.spyData.bind (fun _ => calculateStats rpow sqrt final.spyEquity datesOnly)
          some ⟨datesOnly, final.combined, final.stratEquities, final.spyEquity, stats, spyStats⟩

/-! ### Spec-side definitions (phrased from the specification's wording, for
comparison with the source embedding) -/

/-- The rebalancing schedule as the specification states it, in terms of the
current and previous timeline entries: `daily` always; `monthly` iff the
month differs from the previous timeline day's; `quarterly` iff the month
changed and the new 0-indexed month is a multiple of 3; `annually` iff the
year changed; `none` (and anything else) never. -/
def rebalanceSpec (freq : String) (prev cur : TLPoint) : Bool :=
  if freq = "daily" then true
  else if freq = "monthly" then cur.month != prev.month
  else if freq = "quarterly" then cur.month != prev.month && cur.month % 3 == 0
  else if freq = "annually" then cur.year != prev.year
  else false

/-- Minimum of a string list under the JS order (for the claim's phrase
"each active strategy's minimum date"). -/
def strListMin : List String → Option String
  | [] => none
  | d :: rest => some (rest.foldl (fun a b => if strLt b a then b else a) d)

/-- The master timeline exactly as claim C4 words it: the union of the date
keys of strategies with allocation > 0, filtered to dates ≥ `anchorDate`,
sorted ascending, where `anchorDate` is the maximum over the active
strategies of each active strategy's **minimum** date. -/
def timelineClaimed (strategies : List Strategy) (allocations : List (String × ℚ)) :
    List String :=
  let active := strategies.filter (fun s => 0 < jsAlloc allocations s.id)
  let anchor := (active.filterMap (fun s => strListMin (s.data.map (fun p => p.1)))).foldl
    (fun a b => if strLt a b then b else a) ""
  ((active.flatMap (fun s => s.data.map (fun p => p.1))).dedup.filter
      (fun d => strLe anchor d)).insertionSort (fun a b => strLe a b = true)

/-- The positive day-gaps between consecutive dates among the first 100
samples, as claim C9 words them (via consecutive pairs). -/
def gapsSpec (dates : List String) : List ℚ :=
  ((dates.take 100).zip (dates.take 100).tail).filterMap
    (fun p =>
      match jsDateParse p.1, jsDateParse p.2 with
      | some t1, some t2 => if t1 < t2 then some (((t2 - t1 : ℤ) : ℚ)) else none
      | _, _ => none)

/-- The median (upper median: element at index `⌊n/2⌋` of the ascending
sort) of the positive day-gaps, when any exist. -/
def medianGapSpec (dates : List String) : Option ℚ :=
  (gapsSpec dates).insertionSort (fun a b => a ≤ b) |>.get? ((gapsSpec dates).length / 2)

/-- The claim's threshold classification of the median gap. -/
def classifySpec (m : ℚ) : ℕ :=
  if m ≤ 5 then 252 else if m ≤ 12 then 52 else if m ≤ 45 then 12 else if m ≤ 120 then 4
  else 1

/-! ### Concrete inputs for witnesses and counterexamples -/

/-- Stand-in for the `Math.pow` parameter in concrete runs; its value never
reaches any claimed quantity. -/
def rpow0 : ℚ → ℚ → ℚ := fun _ _ => 0

/-- Stand-in for the `Math.sqrt` parameter in concrete runs.  It agrees
with `Math.sqrt` at the only point where a claimed quantity inspects the
result, namely `sqrt 0 = 0`. -/
def sqrt0 : ℚ → ℚ := fun _ => 0

/-- Strategy A of the spec's example scenario: daily returns +10%, −10%,
+10%, realised by the integer price series 1000, 1100, 990, 1089 (the
claim fixes the returns, not the price levels). -/
def stratA : Strategy :=
  ⟨"A", [("2020-01-01", 1000), ("2020-01-02", 1100), ("2020-01-03", 990),
         ("2020-01-04", 1089)]⟩

/-- Strategy B of the example scenario: flat (always 0%). -/
def stratB : Strategy :=
  ⟨"B", [("2020-01-01", 100), ("2020-01-02", 100), ("2020-01-03", 100),
         ("2020-01-04", 100)]⟩

/-- 50/50 allocation for the example scenario. -/
def allocAB : List (String × ℚ) := [("A", 50), ("B", 50)]

/-- Master timeline of the example scenario. -/
def tlAB : List TLPoint := parsedTimeline [stratA, stratB] allocAB

/-- Run configuration of the example scenario (initial balance 100000,
policy `daily`, no benchmark). -/
def cfgAB : SimConfig :=
  mkConfig [stratA, stratB] allocAB "daily" none (tlAB.headD defaultTLPoint).date 100000

/-- A strategy whose data map is not stored in chronological key order (a
later date inserted first), used against claim C4's anchor description. -/
def stratUnsorted : Strategy := ⟨"A", [("2020-01-02", 1), ("2020-01-01", 1)]⟩

/-- A flat, positive, three-point series, used against claim C8. -/
def mapFlat : List (String × ℚ) :=
  [("2020-01-01", 100), ("2020-01-02", 100), ("2020-01-03", 100)]

/-- A rising two-point positive series for the C8 witness family: its
self-return series is `[1, -1/2]` with nonzero variance. -/
def mapRise : List (String × ℚ) :=
  [("2020-01-01", 100), ("2020-01-02", 200), ("2020-01-03", 100)]

/-- The `Math.sqrt` instantiation used by the C8 witness: exact on the one
perfect-square input that run evaluates, like `Math.sqrt` itself (up to
float rounding). -/
def sqrtRise : ℚ → ℚ := fun q => if q = (9 / 8) * (9 / 8) then 9 / 8 else 0

/-! ### Invariant predicates used by the run-level theorems -/

/-- Side conditions on a run configuration: the spec's input contract
(weights are nonnegative fractions summing to at most 1, one per active
strategy), positive input prices for the active strategies, and a
nonnegative initial balance. -/
def CfgBounds (cfg : SimConfig) : Prop :=
  (∀ w ∈ cfg.weights, 0 ≤ w) ∧ cfg.weights.sum ≤ 1 ∧
  cfg.totalAllocatedWeight = cfg.weights.sum ∧
  cfg.weights.length = cfg.activeStrategies.length ∧
  (∀ s ∈ cfg.activeStrategies, ∀ p ∈ s.data, 0 < p.2) ∧ 0 ≤ cfg.startBalance

/-- The state invariant of claim C1: balances and cash nonnegative, retained
prices positive, the parallel lists sized to the active strategies, and the
combined curve nonempty, nonnegative, starting at the initial balance, with
its last entry equal to strategy-balances-sum + cash. -/
def C1Inv (cfg : SimConfig) (st : SimState) : Prop :=
  (∀ b ∈ st.stratBalances, 0 ≤ b) ∧ 0 ≤ st.cash ∧ (∀ p ∈ st.lastPrices, 0 < p) ∧
  st.stratBalances.length = cfg.activeStrategies.length ∧
  st.lastPrices.length = cfg.activeStrategies.length ∧
  st.stratEquities.length = cfg.activeStrategies.length ∧
  st.combined ≠ [] ∧
  st.combined.getLastD 0 = st.stratBalances.sum + st.cash ∧
  (∀ v ∈ st.combined, 0 ≤ v) ∧
  st.combined.getD 0 0 = cfg.startBalance

/-- The state invariant of claim C5 (policy `none`, fully invested): cash
stays zero, the in-portfolio balances coincide with the last entries of the
independent per-strategy equity curves, and the combined curve is pointwise
the column sum of those curves. -/
def C5Inv (cfg : SimConfig) (st : SimState) : Prop :=
  st.cash = 0 ∧
  st.stratEquities.map (fun l => l.getLastD 0) = st.stratBalances ∧
  st.stratBalances.length = cfg.activeStrategies.length ∧
  st.lastPrices.length = cfg.activeStrategies.length ∧
  st.stratEquities.length = cfg.activeStrategies.length ∧
  st.combined ≠ [] ∧
  (∀ l ∈ st.stratEquities, l.length = st.combined.length) ∧
  st.stratEquities.map (fun l => l.getD 0 0)
    = cfg.weights.map (fun w => cfg.startBalance * w) ∧
  st.combined = (List.range st.combined.length).map
    (fun t => (st.stratEquities.map (fun l => l.getD t 0)).sum)

/-- Math.sqrt stand-in for the flat-series counterexample: 0 at 0 (exactly
like `Math.sqrt`) and nonzero elsewhere (like `Math.sqrt` on positive
inputs). -/
def sqrtPos : ℚ → ℚ := fun q => if q = 0 then 0 else 1

/-! ### Order facts for the JS string comparison -/

theorem charListLt_irrefl : ∀ l : List Char, charListLt l l = false := by
  intro l
  induction l with
  | nil => rfl
  | cons x xs ih => simp [charListLt, ih]

theorem charListLt_trans : ∀ a b c : List Char,
    charListLt a b = true → charListLt b c = true → charListLt a c = true := by
  intro a
  induction a with
  | nil =>
    intro b c hab hbc
    cases b with
    | nil => simp [charListLt] at hab
    | cons y ys =>
      cases c with
      | nil => simp [charListLt] at hbc
      | cons z zs => simp [charListLt]
  | cons x xs ih =>
    intro b c hab hbc
    cases b with
    | nil => simp [charListLt] at hab
    | cons y ys =>
      cases c with
      | nil => simp [charListLt] at hbc
      | cons z zs =>
        simp only [charListLt] at hab hbc ⊢
        by_cases hxy : x < y
        · by_cases hyz : y < z
          · simp [lt_trans hxy hyz]
          · by_cases hzy : z < y
            · simp [hyz, hzy] at hbc
            · have hyz2 : y = z := le_antisymm (not_lt.mp hzy) (not_lt.mp hyz)
              subst hyz2
              simp [hxy]
        · by_cases hyx : y < x
          · simp [hxy, hyx] at hab
          · have hxy2 : x = y := le_antisymm (not_lt.mp hyx) (not_lt.mp hxy)
            subst hxy2
            simp only [if_neg hxy, if_neg hyx] at hab
            by_cases hxz : x < z
            · simp [hxz]
            · by_cases hzx : z < x
              · simp [hxz, hzx] at hbc
              · have hys : charListLt ys zs = true := by
                  simpa [hxz, hzx] using hbc
                simp [hxz, hzx, ih ys zs hab hys]

theorem charListLt_conn : ∀ a b : List Char,
    charListLt a b = false → charListLt b a = false → a = b := by
  intro a
  induction a with
  | nil =>
    intro b hab _
    cases b with
    | nil => rfl
    | cons y ys => simp [charListLt] at hab
  | cons x xs ih =>
    intro b hab hba
    cases b with
    | nil => simp [charListLt] at hba
    | cons y ys =>
      simp only [charListLt] at hab hba
      by_cases hxy : x < y
      · simp [hxy] at hab
      · by_cases hyx : y < x
        · simp [hxy, hyx] at hba
        · have hxy2 : x = y := le_antisymm (not_lt.mp hyx) (not_lt.mp hxy)
          subst hxy2
          simp only [if_neg hxy, if_neg hyx] at hab hba
          rw [ih ys hab hba]

theorem charListLt_asymm {a b : List Char} (h : charListLt a b = true) :
    charListLt b a = false := by
  by_contra hc
  have hba : charListLt b a = true := by
    cases hcb : charListLt b a
    · exact absurd hcb hc
    · rfl
  have := charListLt_trans a b a h hba
  rw [charListLt_irrefl] at this
  exact Bool.false_ne_true this

theorem strLe_total (a b : String) : strLe a b = true ∨ strLe b a = true := by
  unfold strLe strLt
  simp only [Bool.not_eq_true']
  cases h : charListLt a.data b.data
  · right
    rfl
  · left
    exact charListLt_asymm h

theorem strLe_trans {a b c : String} (hab : strLe a b = true) (hbc : strLe b c = true) :
    strLe a c = true := by
  unfold strLe strLt at hab hbc ⊢
  simp only [Bool.not_eq_true'] at hab hbc ⊢
  cases hca : charListLt c.data a.data
  · rfl
  · exfalso
    cases h2 : charListLt b.data c.data
    · have hd := charListLt_conn b.data c.data h2 hbc
      rw [← hd] at hca
      simp [hab] at hca
    · have h3 := charListLt_trans b.data c.data a.data h2 hca
      simp [hab] at h3

theorem strLe_antisymm {a b : String} (hab : strLe a b = true) (hba : strLe b a = true) :
    a = b := by
  unfold strLe strLt at hab hba
  simp only [Bool.not_eq_true'] at hab hba
  have hd := charListLt_conn a.data b.data hba hab
  cases a
  cases b
  exact congrArg String.mk hd

theorem strLt_of_le_of_ne {a b : String} (hab : strLe a b = true) (hne : a ≠ b) :
    strLt a b = true := by
  unfold strLe strLt at hab
  simp only [Bool.not_eq_true'] at hab
  unfold strLt
  cases h : charListLt a.data b.data
  · exfalso
    have hd := charListLt_conn a.data b.data h hab
    apply hne
    cases a
    cases b
    exact congrArg String.mk hd
  · rfl

instance : IsTotal String (fun a b => strLe a b = true) := ⟨strLe_total⟩

instance : IsTrans String (fun a b => strLe a b = true) := ⟨fun _ _ _ => strLe_trans⟩

/-! ### Generic list lemmas -/

theorem getLastD_irrel {α : Type} {l : List α} (h : l ≠ []) (d1 d2 : α) :
    l.getLastD d1 = l.getLastD d2 := by
  cases l with
  | nil => exact absurd rfl h
  | cons a t => rfl

theorem scanl_ne_nil {α β : Type} (f : β → α → β) (b : β) (l : List α) :
    List.scanl f b l ≠ [] := by
  cases l <;> simp [List.scanl]

theorem scanl_getD_zero {α β : Type} (f : β → α → β) (b : β) (l : List α) (d : β) :
    (List.scanl f b l).getD 0 d = b := by
  cases l <;> simp [List.scanl]

theorem scanl_getD_succ {α β : Type} (f : β → α → β) (l : List α) (d : β) (e : α) :
    ∀ (b : β) (i : ℕ), i < l.length →
      (List.scanl f b l).getD (i + 1) d
        = f ((List.scanl f b l).getD i d) (l.getD i e) := by
  induction l with
  | nil => intro b i hi; simp at hi
  | cons a t ih =>
    intro b i hi
    cases i with
    | zero => simp [List.scanl]
    | succ j =>
      simp only [List.scanl, List.getD_cons_succ]
      exact ih (f b a) j (by simpa using hi)

theorem scanl_invariant {α β : Type} {P : β → Prop} (f : β → α → β) :
    ∀ (l : List α) (b : β), P b → (∀ st a, a ∈ l → P st → P (f st a)) →
      ∀ st ∈ List.scanl f b l, P st := by
  intro l
  induction l with
  | nil =>
    intro b hb _ st hst
    simp [List.scanl] at hst
    rwa [hst]
  | cons a t ih =>
    intro b hb hstep st hst
    simp only [List.scanl] at hst
    rcases List.mem_cons.mp hst with h | h
    · rwa [h]
    · exact ih (f b a) (hstep b a (by simp) hb)
        (fun st2 a2 ha2 => hstep st2 a2 (by simp [ha2])) st h

theorem scanl_getLastD {α β : Type} (f : β → α → β) :
    ∀ (l : List α) (b d : β), (List.scanl f b l).getLastD d = List.foldl f b l := by
  intro l
  induction l with
  | nil => intro b d; simp [List.scanl]
  | cons a t ih =>
    intro b d
    simp only [List.scanl, List.foldl_cons, List.getLastD_cons]
    rw [getLastD_irrel (scanl_ne_nil f (f b a) t) b d]
    exact ih (f b a) d

/-! ### Association list lemmas -/

theorem jsMapGet_mem : ∀ {m : List (String × ℚ)} {k : String} {v : ℚ},
    jsMapGet m k = some v → (k, v) ∈ m := by
  intro m
  induction m with
  | nil => intro k v h; simp [jsMapGet] at h
  | cons p t ih =>
    intro k v h
    obtain ⟨k2, v2⟩ := p
    simp only [jsMapGet] at h
    by_cases hk : k2 = k
    · rw [if_pos hk] at h
      injection h with h2
      subst hk
      subst h2
      exact List.mem_cons_self _ _
    · rw [if_neg hk] at h
      exact List.mem_cons_of_mem _ (ih h)

theorem jsMapGet_nodup_eq : ∀ {m : List (String × ℚ)} {k : String} {v : ℚ},
    (m.map (fun p => p.1)).Nodup → (k, v) ∈ m → jsMapGet m k = some v := by
  intro m
  induction m with
  | nil => intro k v _ hmem; simp at hmem
  | cons p t ih =>
    intro k v hnodup hmem
    obtain ⟨k2, v2⟩ := p
    simp only [List.map_cons, List.nodup_cons] at hnodup
    rcases List.mem_cons.mp hmem with h | h
    · rw [show k = k2 from (Prod.mk.injEq _ _ _ _ ▸ h).1,
        show v = v2 from (Prod.mk.injEq _ _ _ _ ▸ h).2]
      simp [jsMapGet]
    · have hk : k2 ≠ k := by
        intro he
        subst he
        exact hnodup.1 (List.mem_map.mpr ⟨(k2, v), h, rfl⟩)
      simp only [jsMapGet, if_neg hk]
      exact ih hnodup.2 h

/-! ### Lemmas about the per-day strategy update -/

theorem dayUpdate_lengths (date : String) :
    ∀ (ss : List Strategy) (lps bals : List ℚ) (eqs : List (List ℚ)),
      lps.length = ss.length → bals.length = ss.length → eqs.length = ss.length →
      (dayUpdate date ss lps bals eqs).1.length = ss.length
      ∧ (dayUpdate date ss lps bals eqs).2.1.length = ss.length
      ∧ (dayUpdate date ss lps bals eqs).2.2.1.length = ss.length := by
  intro ss
  induction ss with
  | nil =>
    intro lps bals eqs h1 h2 h3
    simp only [List.length_nil] at h1 h2 h3
    rw [List.length_eq_zero] at h1 h2 h3
    subst h1; subst h2; subst h3
    simp [dayUpdate]
  | cons s st ih =>
    intro lps bals eqs h1 h2 h3
    cases lps with
    | nil => simp at h1
    | cons lp lpt =>
      cases bals with
      | nil => simp at h2
      | cons bal balt =>
        cases eqs with
        | nil => simp at h3
        | cons eq eqt =>
          simp only [List.length_cons, Nat.succ.injEq] at h1 h2 h3
          have hr := ih lpt balt eqt h1 h2 h3
          simp only [dayUpdate, List.length_cons]
          exact ⟨by rw [hr.1], by rw [hr.2.1], by rw [hr.2.2]⟩

theorem dayUpdate_sum (date : String) :
    ∀ (ss : List Strategy) (lps bals : List ℚ) (eqs : List (List ℚ)),
      (dayUpdate date ss lps bals eqs).2.2.2 = (dayUpdate date ss lps bals eqs).1.sum := by
  intro ss
  induction ss with
  | nil => intro lps bals eqs; simp [dayUpdate]
  | cons s st ih =>
    intro lps bals eqs
    cases lps with
    | nil => simp [dayUpdate]
    | cons lp lpt =>
      cases bals with
      | nil => simp [dayUpdate]
      | cons bal balt =>
        cases eqs with
        | nil => simp [dayUpdate]
        | cons eq eqt =>
          simp only [dayUpdate, List.sum_cons]
          rw [ih lpt balt eqt]

theorem dayUpdate_pos (date : String) :
    ∀ (ss : List Strategy) (lps bals : List ℚ) (eqs : List (List ℚ)),
      (∀ s ∈ ss, ∀ p ∈ s.data, 0 < p.2) →
      (∀ p ∈ lps, 0 < p) → (∀ b ∈ bals, 0 ≤ b) →
      (∀ p ∈ (dayUpdate date ss lps bals eqs).2.1, 0 < p)
      ∧ (∀ b ∈ (dayUpdate date ss lps bals eqs).1, 0 ≤ b) := by
  intro ss
  induction ss with
  | nil => intro lps bals eqs _ _ _; simp [dayUpdate]
  | cons s st ih =>
    intro lps bals eqs hdata hlp hbal
    cases lps with
    | nil => simp [dayUpdate]
    | cons lp lpt =>
      cases bals with
      | nil => simp [dayUpdate]
      | cons bal balt =>
        cases eqs with
        | nil => simp [dayUpdate]
        | cons eq eqt =>
          have hlp0 : 0 < lp := hlp lp (by simp)
          have hcurr : 0 < (jsMapGet s.data date).getD lp := by
            cases hg : jsMapGet s.data date with
            | none => simpa using hlp0
            | some v =>
              have := hdata s (by simp) (date, v) (jsMapGet_mem hg)
              simpa using this
          have hfac : 0 < 1 + (if 0 < lp then ((jsMapGet s.data date).getD lp - lp) / lp else 0) := by
            rw [if_pos hlp0]
            have : 1 + ((jsMapGet s.data date).getD lp - lp) / lp
                = (jsMapGet s.data date).getD lp / lp := by
              field_simp
            rw [this]
            exact div_pos hcurr hlp0
          have hr := ih lpt balt eqt (fun s2 hs2 => hdata s2 (by simp [hs2]))
            (fun p hp => hlp p (by simp [hp])) (fun b hb => hbal b (by simp [hb]))
          constructor
          · intro p hp
            simp only [dayUpdate, List.mem_cons] at hp
            rcases hp with h | h
            · rw [h]; exact hcurr
            · exact hr.1 p h
          · intro b hb
            simp only [dayUpdate, List.mem_cons] at hb
            rcases hb with h | h
            · rw [h]
              exact mul_nonneg (hbal bal (by simp)) (le_of_lt hfac)
            · exact hr.2 b h

theorem dayUpdate_eq_last (date : String) :
    ∀ (ss : List Strategy) (lps bals : List ℚ) (eqs : List (List ℚ)),
      eqs.map (fun l => l.getLastD 0) = bals →
      lps.length = ss.length → bals.length = ss.length → eqs.length = ss.length →
      (dayUpdate date ss lps bals eqs).2.2.1.map (fun l => l.getLastD 0)
        = (dayUpdate date ss lps bals eqs).1 := by
  intro ss
  induction ss with
  | nil =>
    intro lps bals eqs _ h1 h2 h3
    simp only [List.length_nil] at h1 h2 h3
    rw [List.length_eq_zero] at h1 h2 h3
    subst h1; subst h2; subst h3
    simp [dayUpdate]
  | cons s st ih =>
    intro lps bals eqs heq h1 h2 h3
    cases lps with
    | nil => simp at h1
    | cons lp lpt =>
      cases bals with
      | nil => simp at h2
      | cons bal balt =>
        cases eqs with
        | nil => simp at h3
        | cons eq eqt =>
          simp only [List.map_cons, List.cons.injEq] at heq
          simp only [List.length_cons, Nat.succ.injEq] at h1 h2 h3
          simp only [dayUpdate, List.map_cons, List.cons.injEq]
          constructor
          · rw [List.getLastD_concat, heq.1]
          · exact ih lpt balt eqt heq.2 h1 h2 h3

theorem dayUpdate_append (date : String) :
    ∀ (ss : List Strategy) (lps bals : List ℚ) (eqs : List (List ℚ)),
      lps.length = ss.length → bals.length = ss.length → eqs.length = ss.length →
      List.Forall₂ (fun e1 e2 => ∃ x, e2 = e1 ++ [x]) eqs
        (dayUpdate date ss lps bals eqs).2.2.1 := by
  intro ss
  induction ss with
  | nil =>
    intro lps bals eqs h1 h2 h3
    simp only [List.length_nil] at h1 h2 h3
    rw [List.length_eq_zero] at h1 h2 h3
    subst h1; subst h2; subst h3
    simp [dayUpdate]
  | cons s st ih =>
    intro lps bals eqs h1 h2 h3
    cases lps with
    | nil => simp at h1
    | cons lp lpt =>
      cases bals with
      | nil => simp at h2
      | cons bal balt =>
        cases eqs with
        | nil => simp at h3
        | cons eq eqt =>
          simp only [List.length_cons, Nat.succ.injEq] at h1 h2 h3
          simp only [dayUpdate]
          exact List.Forall₂.cons ⟨_, rfl⟩ (ih lpt balt eqt h1 h2 h3)

/-! ### Projection lemmas for one simulated day -/

theorem simStepCore_stratBalances (cfg : SimConfig) (st : SimState) (pt : TLPoint) (b : Bool) :
    (simStepCore cfg st pt b).stratBalances
      = if b then cfg.weights.map (fun w =>
            ((dayUpdate pt.date cfg.activeStrategies st.lastPrices st.stratBalances
              st.stratEquities).2.2.2 + st.cash) * w)
        else (dayUpdate pt.date cfg.activeStrategies st.lastPrices st.stratBalances
          st.stratEquities).1 := rfl

theorem simStepCore_cash (cfg : SimConfig) (st : SimState) (pt : TLPoint) (b : Bool) :
    (simStepCore cfg st pt b).cash
      = if b then ((dayUpdate pt.date cfg.activeStrategies st.lastPrices st.stratBalances
            st.stratEquities).2.2.2 + st.cash) * (1 - cfg.totalAllocatedWeight)
        else st.cash := rfl

theorem simStepCore_lastPrices (cfg : SimConfig) (st : SimState) (pt : TLPoint) (b : Bool) :
    (simStepCore cfg st pt b).lastPrices
      = (dayUpdate pt.date cfg.activeStrategies st.lastPrices st.stratBalances
          st.stratEquities).2.1 := rfl

theorem simStepCore_combined (cfg : SimConfig) (st : SimState) (pt : TLPoint) (b : Bool) :
    (simStepCore cfg st pt b).combined
      = st.combined ++ [(dayUpdate pt.date cfg.activeStrategies st.lastPrices st.stratBalances
          st.stratEquities).2.2.2 + st.cash] := rfl

theorem simStepCore_stratEquities (cfg : SimConfig) (st : SimState) (pt : TLPoint) (b : Bool) :
    (simStepCore cfg st pt b).stratEquities
      = (dayUpdate pt.date cfg.activeStrategies st.lastPrices st.stratBalances
          st.stratEquities).2.2.1 := rfl

theorem simStepCore_curMonth (cfg : SimConfig) (st : SimState) (pt : TLPoint) (b : Bool) :
    (simStepCore cfg st pt b).curMonth = pt.month := rfl

theorem simStepCore_curYear (cfg : SimConfig) (st : SimState) (pt : TLPoint) (b : Bool) :
    (simStepCore cfg st pt b).curYear = pt.year := rfl

theorem simStep_eq (cfg : SimConfig) (st : SimState) (pt : TLPoint) :
    simStep cfg st pt = simStepCore cfg st pt (stepTrigger cfg st pt) := rfl

/-! ### Configuration facts -/

theorem mkConfig_weights_length (strategies : List Strategy)
    (allocations : List (String × ℚ)) (rebalanceFreq : String)
    (spyData : Option (List (String × ℚ))) (t0 : String) (startBalance : ℚ) :
    (mkConfig strategies allocations rebalanceFreq spyData t0 startBalance).weights.length
      = (mkConfig strategies allocations rebalanceFreq spyData t0
          startBalance).activeStrategies.length := by
  simp [mkConfig]

theorem mkConfig_weights_pos (strategies : List Strategy)
    (allocations : List (String × ℚ)) (rebalanceFreq : String)
    (spyData : Option (List (String × ℚ))) (t0 : String) (startBalance : ℚ)
    (hkeys : (allocations.map (fun p => p.1)).Nodup) :
    ∀ w ∈ (mkConfig strategies allocations rebalanceFreq spyData t0 startBalance).weights,
      0 < w := by
  intro w hw
  simp only [mkConfig, List.mem_map] at hw
  obtain ⟨s, hs, rfl⟩ := hw
  have hmem := List.mem_filter.mp hs
  have hid : s.id ∈ (allocations.filter (fun p => 0 < p.2)).map (fun p => p.1) := by
    have := hmem.2
    simpa using this
  obtain ⟨p, hp, hpe⟩ := List.mem_map.mp hid
  have hpf := List.mem_filter.mp hp
  have hget : jsMapGet allocations s.id = some p.2 := by
    rw [← hpe]
    exact jsMapGet_nodup_eq hkeys (by simpa using hpf.1)
  rw [jsAlloc, hget]
  simp only [Option.getD_some]
  have hp2 : 0 < p.2 := by simpa using hpf.2
  positivity

theorem mkConfig_active_sub (strategies : List Strategy)
    (allocations : List (String × ℚ)) (rebalanceFreq : String)
    (spyData : Option (List (String × ℚ))) (t0 : String) (startBalance : ℚ)
    (hpos : ∀ s ∈ strategies, ∀ p ∈ s.data, 0 < p.2) :
    ∀ s ∈ (mkConfig strategies allocations rebalanceFreq spyData t0
        startBalance).activeStrategies, ∀ p ∈ s.data, 0 < p.2 := by
  intro s hs
  simp only [mkConfig] at hs
  exact hpos s (List.mem_filter.mp hs).1

theorem mkConfig_bounds (strategies : List Strategy)
    (allocations : List (String × ℚ)) (rebalanceFreq : String)
    (spyData : Option (List (String × ℚ))) (t0 : String) (startBalance : ℚ)
    (hkeys : (allocations.map (fun p => p.1)).Nodup)
    (hpos : ∀ s ∈ strategies, ∀ p ∈ s.data, 0 < p.2)
    (hbal : 0 ≤ startBalance)
    (hwsum : (mkConfig strategies allocations rebalanceFreq spyData t0
        startBalance).weights.sum ≤ 1) :
    CfgBounds (mkConfig strategies allocations rebalanceFreq spyData t0 startBalance) :=
  ⟨fun w hw => le_of_lt (mkConfig_weights_pos strategies allocations rebalanceFreq spyData
      t0 startBalance hkeys w hw),
   hwsum,
   by simp [mkConfig],
   mkConfig_weights_length strategies allocations rebalanceFreq spyData t0 startBalance,
   mkConfig_active_sub strategies allocations rebalanceFreq spyData t0 startBalance hpos,
   hbal⟩

/-! ### The C1 invariant along a run -/

theorem initLastPrice_pos (t0 : String) (s : Strategy)
    (hdata : ∀ p ∈ s.data, 0 < p.2) : 0 < initLastPrice t0 s := by
  unfold initLastPrice jsOrQ
  cases hg : jsMapGet s.data t0 with
  | some v =>
    have hv : 0 < v := hdata (t0, v) (jsMapGet_mem hg)
    simp only []
    split_ifs with h
    · norm_num
    · exact hv
  | none =>
    cases hf : s.data.find? (fun e => strLe t0 e.1) with
    | none => norm_num
    | some e =>
      have he : 0 < e.2 := hdata e (List.mem_of_find?_eq_some hf)
      simp only [Option.map_some']
      split_ifs with h
      · norm_num
      · exact he

theorem weighted_sum_eq (ws : List ℚ) (T : ℚ) :
    (ws.map (fun w => T * w)).sum = T * ws.sum := by
  induction ws with
  | nil => simp
  | cons w t ih => simp [ih, mul_add]

theorem simInit_inv {cfg : SimConfig} (hcfg : CfgBounds cfg) (t0 : TLPoint) :
    C1Inv cfg (simInit cfg t0) := by
  obtain ⟨hw0, hwsum, htw, hwlen, hdata, hbal⟩ := hcfg
  refine ⟨?_, ?_, ?_, ?_, ?_, ?_, ?_, ?_, ?_, ?_⟩
  · intro b hb
    simp only [simInit, List.mem_map] at hb
    obtain ⟨w, hw, rfl⟩ := hb
    exact mul_nonneg hbal (hw0 w hw)
  · simp only [simInit]
    rw [htw]
    exact mul_nonneg hbal (by linarith)
  · intro p hp
    simp only [simInit, List.mem_map] at hp
    obtain ⟨s, hs, rfl⟩ := hp
    exact initLastPrice_pos t0.date s (hdata s hs)
  · simp [simInit, hwlen]
  · simp [simInit]
  · simp [simInit, hwlen]
  · simp [simInit]
  · show [cfg.startBalance].getLastD 0 = _
    rw [show [cfg.startBalance].getLastD 0 = cfg.startBalance from rfl]
    show cfg.startBalance
      = (cfg.weights.map (fun w => cfg.startBalance * w)).sum
        + cfg.startBalance * (1 - cfg.totalAllocatedWeight)
    rw [weighted_sum_eq, htw]
    ring
  · intro v hv
    simp only [simInit, List.mem_singleton] at hv
    rw [hv]
    exact hbal
  · simp [simInit]

theorem simStepCore_inv {cfg : SimConfig} (hcfg : CfgBounds cfg) {st : SimState}
    (hst : C1Inv cfg st) (pt : TLPoint) (flag : Bool) :
    C1Inv cfg (simStepCore cfg st pt flag) := by
  obtain ⟨hw0, hwsum, htw, hwlen, hdata, hbal0⟩ := hcfg
  obtain ⟨hb, hc, hlp, hlen1, hlen2, hlen3, hne, hsum, hpos, hhead⟩ := hst
  have hlens := dayUpdate_lengths pt.date cfg.activeStrategies st.lastPrices
    st.stratBalances st.stratEquities hlen2 hlen1 hlen3
  have hdpos := dayUpdate_pos pt.date cfg.activeStrategies st.lastPrices
    st.stratBalances st.stratEquities hdata hlp hb
  have hdsum := dayUpdate_sum pt.date cfg.activeStrategies st.lastPrices
    st.stratBalances st.stratEquities
  have hT : 0 ≤ (dayUpdate pt.date cfg.activeStrategies st.lastPrices st.stratBalances
      st.stratEquities).2.2.2 + st.cash := by
    rw [hdsum]
    exact add_nonneg (List.sum_nonneg (fun x hx => hdpos.2 x hx)) hc
  refine ⟨?_, ?_, ?_, ?_, ?_, ?_, ?_, ?_, ?_, ?_⟩
  · rw [simStepCore_stratBalances]
    split_ifs with hbr
    · intro x hx
      obtain ⟨w, hw, rfl⟩ := List.mem_map.mp hx
      exact mul_nonneg hT (hw0 w hw)
    · exact hdpos.2
  · rw [simStepCore_cash]
    split_ifs with hbr
    · rw [htw]
      exact mul_nonneg hT (by linarith)
    · exact hc
  · rw [simStepCore_lastPrices]
    exact hdpos.1
  · rw [simStepCore_stratBalances]
    split_ifs with hbr
    · rw [List.length_map]
      exact hwlen
    · exact hlens.1
  · rw [simStepCore_lastPrices]
    exact hlens.2.1
  · rw [simStepCore_stratEquities]
    exact hlens.2.2
  · rw [simStepCore_combined]
    simp
  · rw [simStepCore_combined, simStepCore_stratBalances, simStepCore_cash,
      List.getLastD_concat]
    split_ifs with hbr
    · rw [weighted_sum_eq, htw]
      ring
    · rw [hdsum]
  · intro v hv
    rw [simStepCore_combined] at hv
    rcases List.mem_append.mp hv with h | h
    · exact hpos v h
    · rw [List.mem_singleton] at h
      rw [h]
      exact hT
  · rw [simStepCore_combined]
    cases hcm : st.combined with
    | nil => exact absurd hcm hne
    | cons c0 ct =>
      rw [hcm] at hhead
      simpa using hhead

theorem simStep_inv {cfg : SimConfig} (hcfg : CfgBounds cfg) {st : SimState}
    (hst : C1Inv cfg st) (pt : TLPoint) : C1Inv cfg (simStep cfg st pt) :=
  simStepCore_inv hcfg hst pt (stepTrigger cfg st pt)

theorem simStates_inv {cfg : SimConfig} (hcfg : CfgBounds cfg) (tl : List TLPoint) :
    ∀ st ∈ simStates cfg tl, C1Inv cfg st := by
  cases tl with
  | nil => intro st hst; simp [simStates] at hst
  | cons t0 rest =>
    exact scanl_invariant (simStep cfg) rest (simInit cfg t0) (simInit_inv hcfg t0)
      (fun st a _ h => simStep_inv hcfg h a)

theorem simStates_combined_length (cfg : SimConfig) (t0 : TLPoint) (rest : List TLPoint)
    (d : SimState) :
    ∀ i, i ≤ rest.length →
      ((List.scanl (simStep cfg) (simInit cfg t0) rest).getD i d).combined.length = i + 1 := by
  intro i
  induction i with
  | zero =>
    intro _
    rw [scanl_getD_zero]
    simp [simInit]
  | succ j ih =>
    intro hj
    rw [scanl_getD_succ (simStep cfg) rest d defaultTLPoint _ j (by omega)]
    rw [simStep_eq, simStepCore_combined, List.length_append, ih (by omega)]
    simp

theorem simStates_combined_prefix (cfg : SimConfig) (t0 : TLPoint) (rest : List TLPoint)
    (d : SimState) :
    ∀ i j, i ≤ j → j ≤ rest.length →
      ((List.scanl (simStep cfg) (simInit cfg t0) rest).getD i d).combined
        <+: ((List.scanl (simStep cfg) (simInit cfg t0) rest).getD j d).combined := by
  intro i j hij
  induction j, hij using Nat.le_induction with
  | base => intro _; exact List.prefix_refl _
  | succ k hk ih =>
    intro hj
    have h1 := ih (by omega)
    rw [scanl_getD_succ (simStep cfg) rest d defaultTLPoint _ k (by omega)]
    rw [simStep_eq, simStepCore_combined]
    exact h1.trans (List.prefix_append _ _)

theorem simStates_combined_getD (cfg : SimConfig) (t0 : TLPoint) (rest : List TLPoint)
    (d : SimState) :
    ∀ t, t ≤ rest.length →
      (((List.scanl (simStep cfg) (simInit cfg t0) rest).getD rest.length d).combined).getD t 0
        = (((List.scanl (simStep cfg) (simInit cfg t0) rest).getD t d).combined).getLastD 0 := by
  intro t ht
  obtain ⟨suf, hsuf⟩ := simStates_combined_prefix cfg t0 rest d t rest.length ht le_rfl
  have hlen := simStates_combined_length cfg t0 rest d t ht
  rw [← hsuf, List.getD_eq_getElem?_getD, List.getElem?_append, if_pos (by omega),
    List.getLastD_eq_getLast?, List.getLast?_eq_getElem?, hlen]
  simp

theorem simulation_inv {rpow : ℚ → ℚ → ℚ} {sqrt : ℚ → ℚ} {strategies : List Strategy}
    {allocations : List (String × ℚ)} {initialBalance : ℚ} {rebalanceFreq : String}
    {spyData : Option (List (String × ℚ))} {tl : List TLPoint} {res : SimResult}
    (hrun : simulation rpow sqrt strategies allocations initialBalance rebalanceFreq
      spyData tl = some res) :
    ∃ t0 rest, tl = t0 :: rest ∧ 1 ≤ rest.length ∧
      res.combinedEquity
        = ((simStates (mkConfig strategies allocations rebalanceFreq spyData t0.date
              initialBalance) tl).getLastD
            (simInit (mkConfig strategies allocations rebalanceFreq spyData t0.date
              initialBalance) t0)).combined ∧
      res.strategyEquities
        = ((simStates (mkConfig strategies allocations rebalanceFreq spyData t0.date
              initialBalance) tl).getLastD
            (simInit (mkConfig strategies allocations rebalanceFreq spyData t0.date
              initialBalance) t0)).stratEquities ∧
      res.dates = tl.map (fun p => p.date) := by
  cases tl with
  | nil => simp [simulation] at hrun
  | cons t0 rest =>
    unfold simulation at hrun
    dsimp only at hrun
    split at hrun
    · exact absurd hrun (by simp)
    · rename_i hlen2
      split at hrun
      · exact absurd hrun (by simp)
      · split at hrun
        · exact absurd hrun (by simp)
        · injection hrun with hres
          refine ⟨t0, rest, rfl, ?_, ?_, ?_, ?_⟩
          · simp only [List.length_cons] at hlen2
            omega
          all_goals rw [← hres]

theorem scanl_getLastD_eq_getD {α β : Type} (f : β → α → β) (b : β) (l : List α) (d : β) :
    (List.scanl f b l).getLastD d = (List.scanl f b l).getD l.length d := by
  rw [List.getLastD_eq_getLast?, List.getLast?_eq_getElem?, List.length_scanl,
    List.getD_eq_getElem?_getD]
  simp

theorem getLastD_mem {α : Type} : ∀ {l : List α}, l ≠ [] → ∀ d : α, l.getLastD d ∈ l := by
  intro l
  induction l with
  | nil => intro h; exact absurd rfl h
  | cons a t ih =>
    intro _ d
    rw [List.getLastD_cons]
    cases t with
    | nil => simp
    | cons b t2 => exact List.mem_cons_of_mem a (ih (by simp) a)

theorem getD_mem {α : Type} {l : List α} {n : ℕ} (h : n < l.length) (d : α) :
    l.getD n d ∈ l := by
  rw [List.getD_eq_getElem?_getD, List.getElem?_eq_getElem h]
  simp only [Option.getD_some]
  exact List.getElem_mem h

/-- C1: for every simulation run (under the spec's input contract — weights
nonnegative and summing to at most 1, nonnegative initial balance, positive
input prices, record-like allocation keys), the combined equity curve starts
at the initial balance; its value at each index `t` equals the sum of the
per-strategy dollar balances plus the cash balance after day `t`; all
balances, cash values and curve values are nonnegative; and a rebalance
changes only the composition of the balances — the appended total and the
balances-plus-cash sum are the same whether or not the day rebalances. -/
theorem C1_combined_curve_invariants
    (rpow : ℚ → ℚ → ℚ) (sqrt : ℚ → ℚ) (strategies : List Strategy)
    (allocations : List (String × ℚ)) (initialBalance : ℚ) (rebalanceFreq : String)
    (spyData : Option (List (String × ℚ))) (tl : List TLPoint) (res : SimResult)
    (cfg : SimConfig)
    (hrun : simulation rpow sqrt strategies allocations initialBalance rebalanceFreq
      spyData tl = some res)
    (hcfg : cfg = mkConfig strategies allocations rebalanceFreq spyData
      (tl.headD defaultTLPoint).date initialBalance)
    (hkeys : (allocations.map (fun p => p.1)).Nodup)
    (hpos : ∀ s ∈ strategies, ∀ p ∈ s.data, 0 < p.2)
    (hbal : 0 ≤ initialBalance)
    (hwsum : cfg.weights.sum ≤ 1) :
    res.combinedEquity.getD 0 0 = initialBalance
    ∧ (∀ t, t < tl.length →
        res.combinedEquity.getD t 0
          = ((simStates cfg tl).getD t
              (simInit cfg (tl.headD defaultTLPoint))).stratBalances.sum
            + ((simStates cfg tl).getD t
              (simInit cfg (tl.headD defaultTLPoint))).cash)
    ∧ (∀ v ∈ res.combinedEquity, 0 ≤ v)
    ∧ (∀ st ∈ simStates cfg tl, (∀ b ∈ st.stratBalances, 0 ≤ b) ∧ 0 ≤ st.cash)
    ∧ (∀ st pt flag,
        (simStepCore cfg st pt flag).combined = (simStepCore cfg st pt false).combined
        ∧ (simStepCore cfg st pt flag).stratBalances.sum + (simStepCore cfg st pt flag).cash
          = (simStepCore cfg st pt false).stratBalances.sum
            + (simStepCore cfg st pt false).cash) := by
  obtain ⟨t0, rest, rfl, hrlen, hcomb, hstrat, hdates⟩ := simulation_inv hrun
  have hc : cfg = mkConfig strategies allocations rebalanceFreq spyData t0.date
      initialBalance := hcfg
  subst hc
  have hbounds : CfgBounds (mkConfig strategies allocations rebalanceFreq spyData t0.date
      initialBalance) :=
    mkConfig_bounds strategies allocations rebalanceFreq spyData t0.date initialBalance
      hkeys hpos hbal hwsum
  have hinv := simStates_inv hbounds (t0 :: rest)
  have hstart : (mkConfig strategies allocations rebalanceFreq spyData t0.date
      initialBalance).startBalance = initialBalance := by simp [mkConfig]
  have hss : simStates (mkConfig strategies allocations rebalanceFreq spyData t0.date
        initialBalance) (t0 :: rest)
      = List.scanl (simStep (mkConfig strategies allocations rebalanceFreq spyData t0.date
        initialBalance)) (simInit (mkConfig strategies allocations rebalanceFreq spyData
        t0.date initialBalance) t0) rest := rfl
  have hfinmem : ((simStates (mkConfig strategies allocations rebalanceFreq spyData t0.date
        initialBalance) (t0 :: rest)).getLastD
      (simInit (mkConfig strategies allocations rebalanceFreq spyData t0.date
        initialBalance) t0))
      ∈ simStates (mkConfig strategies allocations rebalanceFreq spyData t0.date
        initialBalance) (t0 :: rest) := by
    rw [hss]
    exact getLastD_mem (scanl_ne_nil _ _ _) _
  have hfininv := hinv _ hfinmem
  refine ⟨?_, ?_, ?_, fun st hst => ⟨(hinv st hst).1, (hinv st hst).2.1⟩, ?_⟩
  · rw [hcomb, ← hstart]
    exact hfininv.2.2.2.2.2.2.2.2.2
  · intro t ht
    simp only [List.length_cons] at ht
    rw [hcomb, hss, scanl_getLastD_eq_getD,
      simStates_combined_getD _ t0 rest _ t (by omega)]
    have hmem : (List.scanl (simStep (mkConfig strategies allocations rebalanceFreq spyData
          t0.date initialBalance)) (simInit (mkConfig strategies allocations rebalanceFreq
          spyData t0.date initialBalance) t0) rest).getD t
        (simInit (mkConfig strategies allocations rebalanceFreq spyData t0.date
          initialBalance) t0)
        ∈ simStates (mkConfig strategies allocations rebalanceFreq spyData t0.date
          initialBalance) (t0 :: rest) := by
      rw [hss]
      exact getD_mem (by rw [List.length_scanl]; omega) _
    exact (hinv _ hmem).2.2.2.2.2.2.2.1
  · intro v hv
    rw [hcomb] at hv
    exact hfininv.2.2.2.2.2.2.2.2.1 v hv
  · intro st pt flag
    refine ⟨rfl, ?_⟩
    cases flag with
    | false => rfl
    | true =>
      rw [simStepCore_stratBalances, simStepCore_cash, simStepCore_stratBalances,
        simStepCore_cash]
      simp only [if_pos, if_neg, Bool.false_eq_true, if_false, if_true]
      rw [weighted_sum_eq, hbounds.2.2.1,
        dayUpdate_sum pt.date _ st.lastPrices st.stratBalances st.stratEquities]
      ring

/-- Witness for C1: the example-scenario run satisfies every hypothesis, and
the theorem then evaluates the curve's start to the initial balance. -/
theorem C1_combined_curve_invariants_witness :
    (simulation rpow0 sqrt0 [stratA, stratB] allocAB 100000 "daily" none tlAB).map
      (fun r => r.combinedEquity.getD 0 0) = some 100000 := by
  cases hsim : simulation rpow0 sqrt0 [stratA, stratB] allocAB 100000 "daily" none tlAB with
  | none =>
    have hs : (simulation rpow0 sqrt0 [stratA, stratB] allocAB 100000 "daily" none
        tlAB).isSome = true := rfl
    rw [hsim] at hs
    simp at hs
  | some res =>
    have h := C1_combined_curve_invariants rpow0 sqrt0 [stratA, stratB] allocAB 100000
      "daily" none tlAB res _ hsim rfl (by decide) (by decide) (by norm_num)
      (by rw [show (mkConfig [stratA, stratB] allocAB "daily" none
            (tlAB.headD defaultTLPoint).date 100000).weights
          = [50 / 100, 50 / 100] from rfl]
          norm_num)
    simp only [Option.map_some']
    rw [h.1]

/-! ### C2: the rebalancing trigger matches the schedule -/

theorem simStates_markers (cfg : SimConfig) (t0 : TLPoint) (rest : List TLPoint)
    (d : SimState) (e : TLPoint) :
    ∀ i, i ≤ rest.length →
      ((List.scanl (simStep cfg) (simInit cfg t0) rest).getD i d).curMonth
          = ((t0 :: rest).getD i e).month
      ∧ ((List.scanl (simStep cfg) (simInit cfg t0) rest).getD i d).curYear
          = ((t0 :: rest).getD i e).year := by
  intro i
  induction i with
  | zero =>
    intro _
    rw [scanl_getD_zero]
    exact ⟨rfl, rfl⟩
  | succ j ih =>
    intro hj
    rw [scanl_getD_succ (simStep cfg) rest d e _ j (by omega), simStep_eq]
    constructor
    · rw [simStepCore_curMonth, List.getD_cons_succ]
    · rw [simStepCore_curYear, List.getD_cons_succ]

/-- C2: on every simulated day `t ≥ 1` of a run, the rebalance trigger
equals the specified schedule applied to that day's and the previous
timeline day's entries: `daily` always fires; `monthly` iff the month
changed from the previous timeline day; `quarterly` iff the month changed
and the new 0-indexed month is a multiple of 3; `annually` iff the year
changed; `none` never fires.  (`simTriggers` entry `t` is the decision of
day `t + 1`.) -/
theorem C2_rebalance_trigger (cfg : SimConfig) (tl : List TLPoint) :
    ∀ t, t + 1 < tl.length →
      (simTriggers cfg tl).getD t false
        = rebalanceSpec cfg.freq (tl.getD t defaultTLPoint)
            (tl.getD (t + 1) defaultTLPoint) := by
  cases tl with
  | nil => intro t ht; simp at ht
  | cons t0 rest =>
    intro t ht
    simp only [List.length_cons] at ht
    have htr : t < rest.length := by omega
    have hzlen : ((simStates cfg (t0 :: rest)).zip rest).length = rest.length := by
      rw [List.length_zip]
      simp only [simStates, List.length_scanl]
      omega
    show (((simStates cfg (t0 :: rest)).zip rest).map
        (fun p => stepTrigger cfg p.1 p.2)).getD t false = _
    rw [List.getD_eq_getElem?_getD, List.getElem?_map,
      List.getElem?_eq_getElem (by rw [hzlen]; omega : t <
        (((simStates cfg (t0 :: rest)).zip rest)).length)]
    simp only [Option.map_some', Option.getD_some]
    rw [List.getElem_zip]
    have hm := simStates_markers cfg t0 rest
      (simInit cfg t0) defaultTLPoint t (by omega)
    have hgetd : ∀ (l : List SimState) (n : ℕ) (h : n < l.length),
        l[n] = l.getD n (simInit cfg t0) := by
      intro l n h
      rw [List.getD_eq_getElem?_getD, List.getElem?_eq_getElem h]
      rfl
    have hgetd2 : ∀ (l : List TLPoint) (n : ℕ) (h : n < l.length),
        l[n] = l.getD n defaultTLPoint := by
      intro l n h
      rw [List.getD_eq_getElem?_getD, List.getElem?_eq_getElem h]
      rfl
    rw [hgetd (simStates cfg (t0 :: rest)) t (by simp only [simStates, List.length_scanl]; omega)]
    rw [hgetd2 rest t htr]
    show shouldRebalance cfg.freq (rest.getD t defaultTLPoint).month
        (rest.getD t defaultTLPoint).year _ _ = _
    rw [(by exact hm.1 : ((simStates cfg (t0 :: rest)).getD t (simInit cfg t0)).curMonth
        = ((t0 :: rest).getD t defaultTLPoint).month),
      (by exact hm.2 : ((simStates cfg (t0 :: rest)).getD t (simInit cfg t0)).curYear
        = ((t0 :: rest).getD t defaultTLPoint).year)]
    rw [show (t0 :: rest).getD (t + 1) defaultTLPoint = rest.getD t defaultTLPoint from
      List.getD_cons_succ]
    rfl

/-- Witness for C2: in the example run (policy `daily`) the day-1 trigger
matches the schedule and concretely evaluates to `true`. -/
theorem C2_rebalance_trigger_witness :
    (simTriggers cfgAB tlAB).getD 0 false
        = rebalanceSpec cfgAB.freq (tlAB.getD 0 defaultTLPoint) (tlAB.getD 1 defaultTLPoint)
    ∧ (simTriggers cfgAB tlAB).getD 0 false = true :=
  ⟨C2_rebalance_trigger cfgAB tlAB 0 (by decide), rfl⟩

/-! ### C3: short-input behaviour of `calculateStats` -/

/-- Counterexample to C3 as stated: a curve of length 2 with an **empty**
dates sequence does not produce the zero record — the source dereferences
`dates[1].split` on `undefined` and throws (modelled `none`). -/
theorem C3_counterexample :
    calculateStats rpow0 sqrt0 [1, 2] [] = none
    ∧ calculateStats rpow0 sqrt0 [1, 2] [] ≠ some zeroStats := by
  constructor
  · rfl
  · intro h
    rw [show calculateStats rpow0 sqrt0 [1, 2] [] = none from rfl] at h
    exact Option.noConfusion h

/-- C3 (amended): whenever the equity curve has length 0 or 1, regardless of
the dates sequence, `calculateStats` returns the all-zero stats record and
never throws.  (The claim's further clause about an empty dates sequence
with a longer curve is refuted by `C3_counterexample`.) -/
theorem C3_short_curve_zero_stats (rpow : ℚ → ℚ → ℚ) (sqrt : ℚ → ℚ)
    (equityCurve : List ℚ) (dates : List String) (h : equityCurve.length < 2) :
    calculateStats rpow sqrt equityCurve dates = some zeroStats := by
  unfold calculateStats
  rw [if_pos h]

/-- Witness for the amended C3 at a one-point curve. -/
theorem C3_short_curve_zero_stats_witness :
    calculateStats rpow0 sqrt0 [5] ["2020-01-01"] = some zeroStats :=
  C3_short_curve_zero_stats rpow0 sqrt0 [5] ["2020-01-01"] (by decide)

/-! ### C10: `normalizeDate` leaves canonical-shaped strings unchanged -/

theorem isDigit_not_space {c : Char} (h : c.isDigit = true) : isJsSpace c = false := by
  have h1 : c ≠ ' ' := by intro he; subst he; exact absurd h (by decide)
  have h2 : c ≠ '\t' := by intro he; subst he; exact absurd h (by decide)
  have h3 : c ≠ '\n' := by intro he; subst he; exact absurd h (by decide)
  have h4 : c ≠ '\r' := by intro he; subst he; exact absurd h (by decide)
  simp [isJsSpace, h1, h2, h3, h4]

/-- C10: any input of exactly four digits, a hyphen, two digits, a hyphen,
and two digits is returned unchanged by `normalizeDate`, whatever the
generic-parse fallback does — no calendar validation is applied to
canonical-shaped inputs (e.g. `"2023-99-99"` comes back as-is). -/
theorem C10_normalizeDate_canonical (dateFallback : String → Option (ℤ × ℕ × ℕ))
    (s : String) (y1 y2 y3 y4 m1 m2 d1 d2 : Char)
    (hdata : s.data = [y1, y2, y3, y4, '-', m1, m2, '-', d1, d2])
    (h1 : y1.isDigit = true) (h2 : y2.isDigit = true) (h3 : y3.isDigit = true)
    (h4 : y4.isDigit = true) (h5 : m1.isDigit = true) (h6 : m2.isDigit = true)
    (h7 : d1.isDigit = true) (h8 : d2.isDigit = true) :
    normalizeDate dateFallback s = some s := by
  have hne : isJsSpace y1 = false := isDigit_not_space h1
  have hne2 : isJsSpace d2 = false := isDigit_not_space h8
  have htrim0 : jsTrim s = ⟨[y1, y2, y3, y4, '-', m1, m2, '-', d1, d2]⟩ := by
    unfold jsTrim
    rw [hdata]
    simp [List.dropWhile, hne, hne2]
  have htrim : jsTrim s = s := by
    rw [htrim0, ← hdata]
  unfold normalizeDate
  dsimp only
  rw [htrim, hdata]
  rw [if_pos (by simp [matchYMDShape, h1, h2, h3, h4, h5, h6, h7, h8])]

/-- Witness for C10: `"2023-99-99"` is not a valid calendar date but is
returned unchanged. -/
theorem C10_normalizeDate_canonical_witness :
    normalizeDate (fun _ => none) "2023-99-99" = some "2023-99-99" :=
  C10_normalizeDate_canonical (fun _ => none) "2023-99-99"
    '2' '0' '2' '3' '9' '9' '9' '9' rfl
    (by decide) (by decide) (by decide) (by decide)
    (by decide) (by decide) (by decide) (by decide)

/-! ### C9: the frequency detector -/

theorem dateGaps_eq : ∀ l : List String,
    dateGaps l = (l.zip l.tail).filterMap
      (fun p =>
        match jsDateParse p.1, jsDateParse p.2 with
        | some t1, some t2 => if t1 < t2 then some (((t2 - t1 : ℤ) : ℚ)) else none
        | _, _ => none) := by
  intro l
  induction l with
  | nil => rfl
  | cons a t ih =>
    cases t with
    | nil => rfl
    | cons b rest =>
      rw [show (a :: b :: rest).zip (a :: b :: rest).tail
          = (a, b) :: ((b :: rest).zip (b :: rest).tail) from rfl]
      rw [List.filterMap_cons]
      simp only [dateGaps]
      cases hpa : jsDateParse a with
      | none => simpa [hpa] using ih
      | some t1 =>
        cases hpb : jsDateParse b with
        | none => simpa [hpa, hpb] using ih
        | some t2 =>
          have hiff : ((0 : ℚ) < ((t2 - t1 : ℤ) : ℚ)) ↔ t1 < t2 := by
            rw [show ((t2 - t1 : ℤ) : ℚ) = ((t2 : ℚ) - (t1 : ℚ)) by push_cast; ring]
            constructor
            · intro h
              have := sub_pos.mp h
              exact_mod_cast this
            · intro h
              apply sub_pos.mpr
              exact_mod_cast h
          by_cases h : t1 < t2
          · simp [hpa, hpb, h, hiff, ih]
          · simp [hpa, hpb, h, hiff, ih]

theorem detect_eq_spec_form (dates : List String) (h3 : ¬ dates.length < 3) :
    detectAnnualizationFactor dates
      = (if (gapsSpec dates).length = 0 then 252
         else
           if ((gapsSpec dates).insertionSort (fun a b => a ≤ b)).getD
               ((gapsSpec dates).length / 2) 0 ≤ 5 then 252
           else if ((gapsSpec dates).insertionSort (fun a b => a ≤ b)).getD
               ((gapsSpec dates).length / 2) 0 ≤ 12 then 52
           else if ((gapsSpec dates).insertionSort (fun a b => a ≤ b)).getD
               ((gapsSpec dates).length / 2) 0 ≤ 45 then 12
           else if ((gapsSpec dates).insertionSort (fun a b => a ≤ b)).getD
               ((gapsSpec dates).length / 2) 0 ≤ 120 then 4
           else 1) := by
  unfold detectAnnualizationFactor
  rw [if_neg h3]
  dsimp only
  rw [dateGaps_eq]
  rfl

/-- C9: the detector defaults to 252 for fewer than 3 dates; otherwise, when
the positive day-gaps between consecutive dates among the first 100 samples
have a median `m` (the element at index ⌊n/2⌋ of the ascending sort), the
result is 252 if `m ≤ 5`, 52 if `m ≤ 12`, 12 if `m ≤ 45`, 4 if `m ≤ 120`,
and 1 otherwise. -/
theorem C9_frequency_detector (dates : List String) :
    (dates.length < 3 → detectAnnualizationFactor dates = 252)
    ∧ (∀ m, 3 ≤ dates.length → medianGapSpec dates = some m →
        detectAnnualizationFactor dates = classifySpec m) := by
  constructor
  · intro h
    unfold detectAnnualizationFactor
    rw [if_pos h]
  · intro m h3 hm
    unfold medianGapSpec at hm
    rw [detect_eq_spec_form dates (by omega)]
    by_cases hnil : (gapsSpec dates).length = 0
    · rw [List.length_eq_zero] at hnil
      rw [hnil] at hm
      simp [List.insertionSort] at hm
    · rw [if_neg hnil]
      rw [List.get?_eq_getElem?] at hm
      have hmed : ((gapsSpec dates).insertionSort (fun a b => a ≤ b)).getD
          ((gapsSpec dates).length / 2) 0 = m := by
        rw [List.getD_eq_getElem?_getD, hm]
        rfl
      rw [hmed]
      rfl

/-- Witness for C9: a monthly-gapped sequence (gaps 29 and 31 days, median
31) classifies as 12, and a single-date sequence defaults to 252. -/
theorem C9_frequency_detector_witness :
    detectAnnualizationFactor ["2020-01-31", "2020-02-29", "2020-03-31"] = classifySpec 31
    ∧ detectAnnualizationFactor ["2020-01-31"] = 252 :=
  ⟨(C9_frequency_detector ["2020-01-31", "2020-02-29", "2020-03-31"]).2 31 (by decide)
      (by decide),
   (C9_frequency_detector ["2020-01-31"]).1 (by decide)⟩

/-! ### C8: self-correlation -/

theorem corrRets_self_eq : ∀ s : List ℚ, ∀ p ∈ corrRets s s, p.2 = p.1 := by
  intro s
  induction s with
  | nil => intro p hp; simp [corrRets] at hp
  | cons a t ih =>
    cases t with
    | nil => intro p hp; simp [corrRets] at hp
    | cons b rest =>
      intro p hp
      simp only [corrRets] at hp
      split_ifs at hp with h
      · rcases List.mem_cons.mp hp with h2 | h2
        · rw [h2]
        · exact ih p h2
      · exact ih p hp

/-- Counterexample to C8 as stated: a flat, positive, three-point series has
at least 2 points and positive values, yet its self-correlation is `0`, not
1 — the return variance is zero, so the source's `den === 0` guard fires. -/
theorem C8_counterexample :
    calculatePairwiseCorrelation sqrtPos mapFlat mapFlat = some 0
    ∧ calculatePairwiseCorrelation sqrtPos mapFlat mapFlat ≠ some 1 := by
  have h : calculatePairwiseCorrelation sqrtPos mapFlat mapFlat = some 0 := by
    have hint : corrIntersection mapFlat mapFlat
        = ["2020-01-01", "2020-01-02", "2020-01-03"] := rfl
    unfold calculatePairwiseCorrelation
    rw [hint]
    norm_num [mapFlat, jsMapGet, corrRets, sqrtPos]
  refine ⟨h, ?_⟩
  rw [h]
  intro hx
  injection hx with hx2
  exact absurd hx2 (by norm_num)

/-- C8 (amended): the self-correlation of a series equals exactly 1 whenever
the derived self-return series has at least 2 entries and nonzero variance
(`X ≠ 0` below is the shared numerator/denominator factor), given only that
`sqrt` maps the perfect square `X * X` to `X` as `Math.sqrt` does within
float tolerance.  A series with fewer than 2 return pairs yields `null` and
a flat series yields `0`, so "≥ 2 points with a positive value" is not
sufficient for the original claim. -/
theorem C8_self_correlation (sqrt : ℚ → ℚ) (m : List (String × ℚ)) :
    2 ≤ ((corrRets ((corrIntersection m m).map (fun d => (jsMapGet m d).getD 0))
        ((corrIntersection m m).map (fun d => (jsMapGet m d).getD 0))).map
        (fun p => p.1)).length →
    ∀ X : ℚ,
      X = (((corrRets ((corrIntersection m m).map (fun d => (jsMapGet m d).getD 0))
          ((corrIntersection m m).map (fun d => (jsMapGet m d).getD 0))).map
          (fun p => p.1)).map (fun x => x * x)).sum
        - ((corrRets ((corrIntersection m m).map (fun d => (jsMapGet m d).getD 0))
            ((corrIntersection m m).map (fun d => (jsMapGet m d).getD 0))).map
            (fun p => p.1)).sum
          * ((corrRets ((corrIntersection m m).map (fun d => (jsMapGet m d).getD 0))
              ((corrIntersection m m).map (fun d => (jsMapGet m d).getD 0))).map
              (fun p => p.1)).sum
          / (((corrRets ((corrIntersection m m).map (fun d => (jsMapGet m d).getD 0))
              ((corrIntersection m m).map (fun d => (jsMapGet m d).getD 0))).map
              (fun p => p.1)).length : ℚ) →
      X ≠ 0 → sqrt (X * X) = X →
      calculatePairwiseCorrelation sqrt m m = some 1 := by
  intro hlen X hX hX0 hsqrt
  have hself := corrRets_self_eq ((corrIntersection m m).map (fun d => (jsMapGet m d).getD 0))
  have h21 : (corrRets ((corrIntersection m m).map (fun d => (jsMapGet m d).getD 0))
        ((corrIntersection m m).map (fun d => (jsMapGet m d).getD 0))).map (fun p => p.2)
      = (corrRets ((corrIntersection m m).map (fun d => (jsMapGet m d).getD 0))
        ((corrIntersection m m).map (fun d => (jsMapGet m d).getD 0))).map (fun p => p.1) :=
    List.map_congr_left (fun p hp => hself p hp)
  have h12 : (corrRets ((corrIntersection m m).map (fun d => (jsMapGet m d).getD 0))
        ((corrIntersection m m).map (fun d => (jsMapGet m d).getD 0))).map
        (fun p => p.1 * p.2)
      = (corrRets ((corrIntersection m m).map (fun d => (jsMapGet m d).getD 0))
        ((corrIntersection m m).map (fun d => (jsMapGet m d).getD 0))).map
        (fun p => p.1 * p.1) :=
    List.map_congr_left (fun p hp => by rw [hself p hp])
  have hint2 : ¬ (corrIntersection m m).length < 2 := by
    intro hc
    cases hi : corrIntersection m m with
    | nil =>
      rw [hi] at hlen
      simp [corrRets] at hlen
    | cons d ds =>
      cases ds with
      | nil =>
        rw [hi] at hlen
        simp [corrRets] at hlen
      | cons d2 ds2 =>
        rw [hi] at hc
        simp at hc
        omega
  unfold calculatePairwiseCorrelation
  rw [if_neg hint2]
  dsimp only
  rw [if_neg (by omega)]
  rw [h21, h12]
  have hcomp : ((corrRets ((corrIntersection m m).map (fun d => (jsMapGet m d).getD 0))
        ((corrIntersection m m).map (fun d => (jsMapGet m d).getD 0))).map
        (fun p => p.1)).map (fun x => x * x)
      = (corrRets ((corrIntersection m m).map (fun d => (jsMapGet m d).getD 0))
        ((corrIntersection m m).map (fun d => (jsMapGet m d).getD 0))).map
        (fun p => p.1 * p.1) := by
    rw [List.map_map]
    rfl
  rw [← hcomp]
  rw [← hX, hsqrt, if_neg hX0, div_self hX0]

/-- Witness for the amended C8: the series 100, 200, 100 has self-returns
`[1, -1/2]` with `X = 9/8 ≠ 0`; with a square root exact at `(9/8)²` the
self-correlation is exactly 1. -/
theorem C8_self_correlation_witness :
    calculatePairwiseCorrelation sqrtRise mapRise mapRise = some 1 := by
  have hrets : (corrRets ((corrIntersection mapRise mapRise).map
      (fun d => (jsMapGet mapRise d).getD 0))
      ((corrIntersection mapRise mapRise).map
      (fun d => (jsMapGet mapRise d).getD 0))).map (fun p => p.1)
      = [(200 - 100) / 100, (100 - 200) / 200] := rfl
  refine C8_self_correlation sqrtRise mapRise ?_ (9 / 8) ?_ ?_ ?_
  · rw [hrets]
    norm_num
  · rw [hrets]
    norm_num
  · norm_num
  · norm_num [sqrtRise]

/-! ### C7: max drawdown bounds and characterization -/

theorem le_ite_max (acc dd : ℚ) : acc ≤ if acc < dd then dd else acc := by
  split_ifs with h
  · exact le_of_lt h
  · exact le_refl _

theorem ddLoop_acc_le : ∀ (vs : List ℚ) (peak : Option ℚ) (acc : ℚ),
    acc ≤ ddLoop vs peak acc := by
  intro vs
  induction vs with
  | nil => intro peak acc; exact le_refl _
  | cons v rest ih =>
    intro peak acc
    simp only [ddLoop]
    exact le_trans (le_ite_max _ _) (ih _ _)

theorem ite_max_le_one {acc dd : ℚ} (h1 : acc ≤ 1) (h2 : dd ≤ 1) :
    (if acc < dd then dd else acc) ≤ 1 := by
  split_ifs
  · exact h2
  · exact h1

theorem ddLoop_le_one : ∀ (vs : List ℚ) (peak : Option ℚ) (acc : ℚ),
    (∀ v ∈ vs, 0 ≤ v) → acc ≤ 1 → ddLoop vs peak acc ≤ 1 := by
  intro vs
  induction vs with
  | nil => intro peak acc _ h1; exact h1
  | cons v rest ih =>
    intro peak acc hnn h1
    simp only [ddLoop]
    have hv : 0 ≤ v := hnn v (by simp)
    set peak2 : ℚ := (match peak with
      | none => v
      | some p => if p < v then v else p) with hpk
    have hdd : (if 0 < peak2 then (peak2 - v) / peak2 else 0) ≤ 1 := by
      split_ifs with hp
      · rw [div_le_one hp]
        linarith
      · norm_num
    exact ih _ _ (fun x hx => hnn x (by simp [hx])) (ite_max_le_one h1 hdd)

theorem ddLoop_chain_zero : ∀ (vs : List ℚ) (p : ℚ) (acc : ℚ),
    List.Chain' (fun a b => a ≤ b) (p :: vs) → 0 ≤ acc →
    ddLoop vs (some p) acc = acc := by
  intro vs
  induction vs with
  | nil => intro p acc _ _; rfl
  | cons v rest ih =>
    intro p acc hch hacc
    have hpv : p ≤ v := (List.chain'_cons.mp hch).1
    have hch2 : List.Chain' (fun a b => a ≤ b) (v :: rest) := (List.chain'_cons.mp hch).2
    simp only [ddLoop]
    have hpk : (if p < v then v else p) = v := by
      split_ifs with h
      · rfl
      · exact le_antisymm hpv (not_lt.mp h)
    rw [hpk]
    have hdd : (if 0 < v then (v - v) / v else 0) = 0 := by
      split_ifs <;> simp
    rw [hdd]
    rw [if_neg (by linarith : ¬ acc < 0)]
    exact ih v acc hch2 hacc

theorem maxDrawdownOf_chain {vs : List ℚ}
    (h : List.Chain' (fun a b => a ≤ b) vs) : maxDrawdownOf vs = 0 := by
  cases vs with
  | nil => rfl
  | cons v rest =>
    unfold maxDrawdownOf
    simp only [ddLoop]
    have hdd : (if 0 < v then (v - v) / v else 0) = 0 := by
      split_ifs <;> simp
    rw [hdd]
    rw [if_neg (by norm_num : ¬ (0 : ℚ) < 0)]
    exact ddLoop_chain_zero rest v 0 h (le_refl 0)

theorem ddLoop_zero_chain : ∀ (vs : List ℚ) (p : ℚ),
    (∀ v ∈ vs, 0 ≤ v) → 0 ≤ p → ddLoop vs (some p) 0 = 0 →
    List.Chain' (fun a b => a ≤ b) (p :: vs) := by
  intro vs
  induction vs with
  | nil => intro p _ _ _; simp
  | cons v rest ih =>
    intro p hnn hp h
    have hv : 0 ≤ v := hnn v (by simp)
    simp only [ddLoop] at h
    set pk : ℚ := if p < v then v else p with hpkdef
    set dd : ℚ := if 0 < pk then (pk - v) / pk else 0 with hdddef
    have hd0 : ¬ 0 < dd := by
      intro hc
      have h2 := ddLoop_acc_le rest (some pk) (if 0 < dd then dd else 0)
      rw [h] at h2
      rw [if_pos hc] at h2
      linarith
    have hpv : p ≤ v := by
      by_contra hc
      push_neg at hc
      have hpkp : pk = p := by rw [hpkdef, if_neg (by linarith)]
      have hppos : 0 < p := lt_of_le_of_lt hv hc
      apply hd0
      rw [show dd = (p - v) / p from by rw [hdddef, hpkp, if_pos hppos]]
      exact div_pos (by linarith) hppos
    have hpkv : pk = v := by
      rw [hpkdef]
      split_ifs with h2
      · rfl
      · exact le_antisymm hpv (not_lt.mp h2)
    rw [if_neg hd0, hpkv] at h
    exact List.chain'_cons.mpr ⟨hpv, ih v (fun x hx => hnn x (by simp [hx])) hv h⟩

theorem maxDrawdownOf_zero_chain {vs : List ℚ} (hnn : ∀ v ∈ vs, 0 ≤ v)
    (h : maxDrawdownOf vs = 0) : List.Chain' (fun a b => a ≤ b) vs := by
  cases vs with
  | nil => simp
  | cons v rest =>
    unfold maxDrawdownOf at h
    simp only [ddLoop] at h
    have hdd : (if 0 < v then (v - v) / v else 0) = 0 := by
      split_ifs <;> simp
    rw [hdd, if_neg (by norm_num : ¬ (0 : ℚ) < 0)] at h
    exact ddLoop_zero_chain rest v (fun x hx => hnn x (by simp [hx]))
      (hnn v (by simp)) h

theorem statsReturnsAux_some : ∀ (rest : List ℚ) (prev : ℚ) (ds : List String),
    rest.length ≤ ds.length →
    ∃ rks, statsReturnsAux prev rest ds = some rks ∧ rks.length = rest.length := by
  intro rest
  induction rest with
  | nil => intro prev ds _; exact ⟨[], rfl, rfl⟩
  | cons curr t ih =>
    intro prev ds hlen
    cases ds with
    | nil => simp at hlen
    | cons d dtail =>
      obtain ⟨rks, hrks, hrkslen⟩ := ih curr dtail (by simpa using hlen)
      refine ⟨(if 0 < prev then (curr - prev) / prev else 0, splitYM d) :: rks, ?_, by
        simp [hrkslen]⟩
      simp only [statsReturnsAux, hrks]

theorem yearTriple_some : ∀ (ds : List String) (curve rets : List ℚ),
    ds.length ≤ curve.length → ds.length ≤ rets.length →
    ∃ t, yearTriple ds curve rets = some t := by
  intro ds
  induction ds with
  | nil => intro curve rets _ _; exact ⟨[], rfl⟩
  | cons d dt ih =>
    intro curve rets h1 h2
    cases curve with
    | nil => simp at h1
    | cons v ct =>
      cases rets with
      | nil => simp at h2
      | cons r rt =>
        obtain ⟨t, ht⟩ := ih ct rt (by simpa using h1) (by simpa using h2)
        refine ⟨(splitYear d, v, r) :: t, ?_⟩
        simp only [yearTriple, ht]

/-- C7: for every equity curve of nonnegative values with length ≥ 2 and
index-aligned dates, `calculateStats` succeeds and reports a max drawdown in
[0, 1] that is zero exactly when the curve is non-decreasing. -/
theorem C7_max_drawdown (rpow : ℚ → ℚ → ℚ) (sqrt : ℚ → ℚ)
    (equityCurve : List ℚ) (dates : List String)
    (hlen : 2 ≤ equityCurve.length) (halign : dates.length = equityCurve.length)
    (hnn : ∀ v ∈ equityCurve, 0 ≤ v) :
    ∃ st, calculateStats rpow sqrt equityCurve dates = some st
      ∧ 0 ≤ st.maxDrawdown ∧ st.maxDrawdown ≤ 1
      ∧ (st.maxDrawdown = 0 ↔ List.Chain' (fun a b => a ≤ b) equityCurve) := by
  cases equityCurve with
  | nil => simp at hlen
  | cons v0 vrest =>
    cases dates with
    | nil =>
      simp only [List.length_nil, List.length_cons] at halign
      omega
    | cons d0 dtail =>
      simp only [List.length_cons] at halign hlen
      obtain ⟨rks, hrks, hrkslen⟩ := statsReturnsAux_some vrest v0 dtail (by omega)
      obtain ⟨trips, htrips⟩ := yearTriple_some dtail vrest (rks.map (fun rk => rk.1))
        (by omega) (by rw [List.length_map, hrkslen]; omega)
      unfold calculateStats
      rw [if_neg (by simp only [List.length_cons]; omega)]
      simp only [hrks, htrips]
      refine ⟨_, rfl, ?_, ?_, ?_⟩
      · exact ddLoop_acc_le _ _ _
      · exact ddLoop_le_one _ _ _ hnn (by norm_num)
      · exact ⟨fun h => maxDrawdownOf_zero_chain hnn h, fun h => maxDrawdownOf_chain h⟩

/-- Witness for C7: the declining two-point curve [100, 50]. -/
theorem C7_max_drawdown_witness :
    ∃ st, calculateStats rpow0 sqrt0 [100, 50] ["2020-01-01", "2020-01-02"] = some st
      ∧ 0 ≤ st.maxDrawdown ∧ st.maxDrawdown ≤ 1
      ∧ (st.maxDrawdown = 0 ↔ List.Chain' (fun a b => a ≤ b) ([100, 50] : List ℚ)) :=
  C7_max_drawdown rpow0 sqrt0 [100, 50] ["2020-01-01", "2020-01-02"]
    (by decide) (by decide) (by decide)

/-! ### C4: the master timeline -/

theorem mem_setAdd {l : List String} {d x : String} :
    x ∈ setAdd l d ↔ x ∈ l ∨ x = d := by
  unfold setAdd
  split_ifs with h
  · constructor
    · exact fun hx => Or.inl hx
    · intro hx
      rcases hx with hx | hx
      · exact hx
      · rwa [hx]
  · simp

theorem nodup_setAdd {l : List String} (h : l.Nodup) (d : String) : (setAdd l d).Nodup := by
  unfold setAdd
  split_ifs with hd
  · exact h
  · simp [List.nodup_append, h, hd]

theorem mem_setAdd_foldl : ∀ (ds : List String) (acc : List String) (x : String),
    x ∈ ds.foldl setAdd acc ↔ x ∈ acc ∨ x ∈ ds := by
  intro ds
  induction ds with
  | nil => intro acc x; simp
  | cons d dt ih =>
    intro acc x
    rw [List.foldl_cons, ih, mem_setAdd]
    simp only [List.mem_cons]
    tauto

theorem nodup_setAdd_foldl : ∀ (ds : List String) (acc : List String),
    acc.Nodup → (ds.foldl setAdd acc).Nodup := by
  intro ds
  induction ds with
  | nil => intro acc h; exact h
  | cons d dt ih => intro acc h; exact ih _ (nodup_setAdd h d)

theorem mem_timelineDatesSet (allocations : List (String × ℚ)) :
    ∀ (ss : List Strategy) (acc : List String) (x : String),
      x ∈ ss.foldl
        (fun acc s =>
          if 0 < jsAlloc allocations s.id then (s.data.map (fun p => p.1)).foldl setAdd acc
          else acc) acc
      ↔ x ∈ acc ∨ ∃ s ∈ ss, 0 < jsAlloc allocations s.id ∧ x ∈ s.data.map (fun p => p.1) := by
  intro ss
  induction ss with
  | nil => intro acc x; simp
  | cons s st ih =>
    intro acc x
    rw [List.foldl_cons]
    by_cases hact : 0 < jsAlloc allocations s.id
    · rw [if_pos hact, ih, mem_setAdd_foldl]
      simp only [List.mem_cons]
      constructor
      · rintro ((h | h) | ⟨s2, hs2, h2, h3⟩)
        · exact Or.inl h
        · exact Or.inr ⟨s, Or.inl rfl, hact, h⟩
        · exact Or.inr ⟨s2, Or.inr hs2, h2, h3⟩
      · rintro (h | ⟨s2, (rfl | hs2), h2, h3⟩)
        · exact Or.inl (Or.inl h)
        · exact Or.inl (Or.inr h3)
        · exact Or.inr ⟨s2, hs2, h2, h3⟩
    · rw [if_neg hact, ih]
      simp only [List.mem_cons]
      constructor
      · rintro (h | ⟨s2, hs2, h2, h3⟩)
        · exact Or.inl h
        · exact Or.inr ⟨s2, Or.inr hs2, h2, h3⟩
      · rintro (h | ⟨s2, (rfl | hs2), h2, h3⟩)
        · exact Or.inl h
        · exact absurd h2 hact
        · exact Or.inr ⟨s2, hs2, h2, h3⟩

theorem nodup_timelineDatesSet (allocations : List (String × ℚ)) :
    ∀ (ss : List Strategy) (acc : List String), acc.Nodup →
      (ss.foldl
        (fun acc s =>
          if 0 < jsAlloc allocations s.id then (s.data.map (fun p => p.1)).foldl setAdd acc
          else acc) acc).Nodup := by
  intro ss
  induction ss with
  | nil => intro acc h; exact h
  | cons s st ih =>
    intro acc h
    rw [List.foldl_cons]
    by_cases hact : 0 < jsAlloc allocations s.id
    · rw [if_pos hact]
      exact ih _ (nodup_setAdd_foldl _ _ h)
    · rw [if_neg hact]
      exact ih _ h

theorem timelineAnchor_eq (allocations : List (String × ℚ)) :
    ∀ (ss : List Strategy) (acc : String),
      ss.foldl
        (fun acc s =>
          if 0 < jsAlloc allocations s.id then
            match s.data.map (fun p => p.1) with
            | [] => acc
            | d0 :: _ => if strLt acc d0 then d0 else acc
          else acc) acc
      = ((ss.filter (fun s => 0 < jsAlloc allocations s.id)).filterMap
          (fun s => (s.data.map (fun p => p.1)).head?)).foldl
          (fun a b => if strLt a b then b else a) acc := by
  intro ss
  induction ss with
  | nil => intro acc; rfl
  | cons s st ih =>
    intro acc
    by_cases hact : 0 < jsAlloc allocations s.id
    · cases hd : s.data with
      | nil => simp [List.filter_cons, List.filterMap_cons, hact, hd, ih]
      | cons p t => simp [List.filter_cons, List.filterMap_cons, hact, hd, ih]
    · simp [List.filter_cons, List.filterMap_cons, hact, ih]

/-- C4 (amended): the master timeline is the union of the date keys of the
strategies with allocation > 0, filtered to dates ≥ `anchorDate`, sorted
ascending and strictly increasing with no duplicates, and empty when no
strategy has positive allocation — where `anchorDate` is the maximum over
the active strategies of each active strategy's **first stored** date key
(which is its minimum date exactly when the series is stored in
chronological order; the original "minimum date" reading is refuted by
`C4_counterexample`). -/
theorem C4_timeline_amended (strategies : List Strategy) (allocations : List (String × ℚ)) :
    List.Pairwise (fun a b => strLt a b = true)
      ((parsedTimeline strategies allocations).map (fun p => p.date))
    ∧ (∀ d, d ∈ (parsedTimeline strategies allocations).map (fun p => p.date) ↔
        ((∃ s ∈ strategies.filter (fun s => 0 < jsAlloc allocations s.id),
            d ∈ s.data.map (fun p => p.1))
          ∧ strLe (((strategies.filter (fun s => 0 < jsAlloc allocations s.id)).filterMap
              (fun s => (s.data.map (fun p => p.1)).head?)).foldl
              (fun a b => if strLt a b then b else a) "") d = true))
    ∧ (strategies.filter (fun s => 0 < jsAlloc allocations s.id) = [] →
        (parsedTimeline strategies allocations).map (fun p => p.date) = []) := by
  have hmapdate : ∀ l : List String,
      (l.map (fun date =>
        (⟨date, (jsDateFields date).2, (jsDateFields date).1⟩ : TLPoint))).map
        (fun p => p.date) = l := by
    intro l
    induction l with
    | nil => rfl
    | cons a t ih2 => simp [ih2]
  have hdates : (parsedTimeline strategies allocations).map (fun p => p.date)
      = ((timelineDatesSet strategies allocations).filter
          (fun d => strLe (timelineAnchor strategies allocations) d)).insertionSort
          (fun a b => strLe a b = true) := by
    unfold parsedTimeline
    dsimp only
    exact hmapdate _
  have hanchor : timelineAnchor strategies allocations
      = ((strategies.filter (fun s => 0 < jsAlloc allocations s.id)).filterMap
          (fun s => (s.data.map (fun p => p.1)).head?)).foldl
          (fun a b => if strLt a b then b else a) "" := timelineAnchor_eq allocations strategies ""
  have hmemset : ∀ x, x ∈ timelineDatesSet strategies allocations ↔
      ∃ s ∈ strategies, 0 < jsAlloc allocations s.id ∧ x ∈ s.data.map (fun p => p.1) := by
    intro x
    have := mem_timelineDatesSet allocations strategies [] x
    simpa using this
  have hndset : (timelineDatesSet strategies allocations).Nodup :=
    nodup_timelineDatesSet allocations strategies [] (by simp)
  have hmem : ∀ d, d ∈ (parsedTimeline strategies allocations).map (fun p => p.date) ↔
      ((∃ s ∈ strategies.filter (fun s => 0 < jsAlloc allocations s.id),
          d ∈ s.data.map (fun p => p.1))
        ∧ strLe (((strategies.filter (fun s => 0 < jsAlloc allocations s.id)).filterMap
            (fun s => (s.data.map (fun p => p.1)).head?)).foldl
            (fun a b => if strLt a b then b else a) "") d = true) := by
    intro d
    rw [hdates, (List.perm_insertionSort _ _).mem_iff, List.mem_filter, hmemset, ← hanchor]
    constructor
    · rintro ⟨⟨s, hs, hact, hmem2⟩, hle⟩
      exact ⟨⟨s, List.mem_filter.mpr ⟨hs, by simpa using hact⟩, hmem2⟩, hle⟩
    · rintro ⟨⟨s, hs, hmem2⟩, hle⟩
      have := List.mem_filter.mp hs
      exact ⟨⟨s, this.1, by simpa using this.2, hmem2⟩, hle⟩
  refine ⟨?_, hmem, ?_⟩
  · rw [hdates]
    have hsorted := List.sorted_insertionSort (fun a b => strLe a b = true)
      ((timelineDatesSet strategies allocations).filter
        (fun d => strLe (timelineAnchor strategies allocations) d))
    have hnd : (((timelineDatesSet strategies allocations).filter
        (fun d => strLe (timelineAnchor strategies allocations) d)).insertionSort
        (fun a b => strLe a b = true)).Nodup :=
      (List.perm_insertionSort _ _).nodup_iff.mpr (hndset.filter _)
    exact (List.Pairwise.and hsorted hnd).imp
      (fun hab => strLt_of_le_of_ne hab.1 hab.2)
  · intro hempty
    rw [List.eq_nil_iff_forall_not_mem]
    intro d hd
    obtain ⟨⟨s, hs, _⟩, _⟩ := (hmem d).mp hd
    rw [hempty] at hs
    simp at hs

/-- Counterexample to C4 as stated: a strategy whose map stores a later date
first.  The source anchors at the *first stored* key (`dates[0]`), not the
minimum date, so the code's timeline drops `"2020-01-01"` while the claim's
description keeps it. -/
theorem C4_counterexample :
    (parsedTimeline [stratUnsorted] [("A", 100)]).map (fun p => p.date)
        ≠ timelineClaimed [stratUnsorted] [("A", 100)]
    ∧ (parsedTimeline [stratUnsorted] [("A", 100)]).map (fun p => p.date) = ["2020-01-02"]
    ∧ timelineClaimed [stratUnsorted] [("A", 100)]
        = ["2020-01-01", "2020-01-02"] := by
  refine ⟨?_, ?_, ?_⟩ <;> decide

/-- Witness for the amended C4 on the example scenario's strategies. -/
theorem C4_timeline_amended_witness :
    (parsedTimeline [stratA, stratB] allocAB).map (fun p => p.date)
        = ["2020-01-01", "2020-01-02", "2020-01-03", "2020-01-04"]
    ∧ ("2020-01-03" ∈ (parsedTimeline [stratA, stratB] allocAB).map (fun p => p.date) ↔
        ((∃ s ∈ [stratA, stratB].filter (fun s => 0 < jsAlloc allocAB s.id),
            "2020-01-03" ∈ s.data.map (fun p => p.1))
          ∧ strLe ((([stratA, stratB].filter (fun s => 0 < jsAlloc allocAB s.id)).filterMap
              (fun s => (s.data.map (fun p => p.1)).head?)).foldl
              (fun a b => if strLt a b then b else a) "") "2020-01-03" = true)) :=
  ⟨by decide, (C4_timeline_amended [stratA, stratB] allocAB).2.1 "2020-01-03"⟩

/-! ### C5: buy-and-hold equivalence under policy `none` -/

theorem forall₂_mem_right {α β : Type} {R : α → β → Prop} :
    ∀ {l1 : List α} {l2 : List β}, List.Forall₂ R l1 l2 → ∀ b ∈ l2, ∃ a ∈ l1, R a b := by
  intro l1 l2 h
  induction h with
  | nil => intro b hb; simp at hb
  | cons hr _ ih =>
    intro b hb
    rcases List.mem_cons.mp hb with h2 | h2
    · exact ⟨_, by simp, h2 ▸ hr⟩
    · obtain ⟨a, ha, har⟩ := ih b h2
      exact ⟨a, by simp [ha], har⟩

theorem forall₂_sum_map {α β : Type} {f : α → ℚ} {g : β → ℚ} :
    ∀ {l1 : List α} {l2 : List β}, List.Forall₂ (fun a b => f a = g b) l1 l2 →
      (l1.map f).sum = (l2.map g).sum := by
  intro l1 l2 h
  induction h with
  | nil => rfl
  | cons hr _ ih => simp [hr, ih]

theorem forall₂_and_left_mem {α β : Type} {R : α → β → Prop} {P : α → Prop} :
    ∀ {l1 : List α} {l2 : List β}, List.Forall₂ R l1 l2 → (∀ a ∈ l1, P a) →
      List.Forall₂ (fun a b => R a b ∧ P a) l1 l2 := by
  intro l1 l2 h
  induction h with
  | nil => intro _; exact List.Forall₂.nil
  | cons hr _ ih =>
    intro hp
    exact List.Forall₂.cons ⟨hr, hp _ (by simp)⟩
      (ih (fun a ha => hp a (by simp [ha])))

theorem forall₂_map_eq {α β γ : Type} {f : α → γ} {g : β → γ} :
    ∀ {l1 : List α} {l2 : List β}, List.Forall₂ (fun a b => f a = g b) l1 l2 →
      l1.map f = l2.map g := by
  intro l1 l2 h
  induction h with
  | nil => rfl
  | cons hr _ ih => simp [hr, ih]

theorem getD_append_left {l1 l2 : List ℚ} {t : ℕ} (h : t < l1.length) :
    (l1 ++ l2).getD t 0 = l1.getD t 0 := by
  rw [List.getD_eq_getElem?_getD, List.getD_eq_getElem?_getD, List.getElem?_append,
    if_pos h]

theorem getD_at_pred {l : List ℚ} {n : ℕ} (h : l.length = n + 1) :
    l.getD n 0 = l.getLastD 0 := by
  rw [List.getD_eq_getElem?_getD, List.getLastD_eq_getLast?, List.getLast?_eq_getElem?, h]
  rfl

theorem getD_range_map {f : ℕ → ℚ} {n t : ℕ} (h : t < n) (d : ℚ) :
    ((List.range n).map f).getD t d = f t := by
  rw [List.getD_eq_getElem?_getD, List.getElem?_map, List.getElem?_range h]
  rfl

theorem simInit_c5inv {cfg : SimConfig} (htw : cfg.totalAllocatedWeight = cfg.weights.sum)
    (hsum1 : cfg.weights.sum = 1) (hwlen : cfg.weights.length = cfg.activeStrategies.length)
    (t0 : TLPoint) : C5Inv cfg (simInit cfg t0) := by
  refine ⟨?_, ?_, ?_, ?_, ?_, ?_, ?_, ?_, ?_⟩
  · show cfg.startBalance * (1 - cfg.totalAllocatedWeight) = 0
    rw [htw, hsum1]
    ring
  · show (cfg.weights.map (fun w => [cfg.startBalance * w])).map (fun l => l.getLastD 0)
      = cfg.weights.map (fun w => cfg.startBalance * w)
    rw [List.map_map]
    rfl
  · simp [simInit, hwlen]
  · simp [simInit]
  · simp [simInit, hwlen]
  · show ([cfg.startBalance] : List ℚ) ≠ []
    simp
  · intro l hl
    simp only [simInit, List.mem_map] at hl
    obtain ⟨w, _, rfl⟩ := hl
    simp [simInit]
  · show (cfg.weights.map (fun w => [cfg.startBalance * w])).map (fun l => l.getD 0 0)
      = cfg.weights.map (fun w => cfg.startBalance * w)
    rw [List.map_map]
    rfl
  · show ([cfg.startBalance] : List ℚ)
      = (List.range ([cfg.startBalance] : List ℚ).length).map
          (fun t => ((cfg.weights.map (fun w => [cfg.startBalance * w])).map
            (fun l => l.getD t 0)).sum)
    rw [show ([cfg.startBalance] : List ℚ).length = 1 from rfl,
      show List.range 1 = [0] from rfl]
    simp only [List.map_cons, List.map_nil]
    rw [show (cfg.weights.map (fun w => [cfg.startBalance * w])).map
        (fun l => l.getD 0 0) = cfg.weights.map (fun w => cfg.startBalance * w) from by
      rw [List.map_map]; rfl]
    rw [weighted_sum_eq, hsum1, mul_one]

theorem simStepCore_c5inv {cfg : SimConfig} {st : SimState} (hst : C5Inv cfg st)
    (pt : TLPoint) : C5Inv cfg (simStepCore cfg st pt false) := by
  obtain ⟨hc, heq, hlen1, hlen2, hlen3, hne, hlens, hhead, hcol⟩ := hst
  have hdlen := dayUpdate_lengths pt.date cfg.activeStrategies st.lastPrices
    st.stratBalances st.stratEquities hlen2 hlen1 hlen3
  have happ := dayUpdate_append pt.date cfg.activeStrategies st.lastPrices
    st.stratBalances st.stratEquities hlen2 hlen1 hlen3
  have hlast := dayUpdate_eq_last pt.date cfg.activeStrategies st.lastPrices
    st.stratBalances st.stratEquities heq hlen2 hlen1 hlen3
  have hdsum := dayUpdate_sum pt.date cfg.activeStrategies st.lastPrices
    st.stratBalances st.stratEquities
  have hcomb : (simStepCore cfg st pt false).combined
      = st.combined ++ [(dayUpdate pt.date cfg.activeStrategies st.lastPrices
          st.stratBalances st.stratEquities).2.2.2 + st.cash] := rfl
  have heqs : (simStepCore cfg st pt false).stratEquities
      = (dayUpdate pt.date cfg.activeStrategies st.lastPrices
          st.stratBalances st.stratEquities).2.2.1 := rfl
  have hbals : (simStepCore cfg st pt false).stratBalances
      = (dayUpdate pt.date cfg.activeStrategies st.lastPrices
          st.stratBalances st.stratEquities).1 := rfl
  have hlennew : ∀ l ∈ (dayUpdate pt.date cfg.activeStrategies st.lastPrices
      st.stratBalances st.stratEquities).2.2.1, l.length = st.combined.length + 1 := by
    intro l hl
    obtain ⟨a, ha, x, hx⟩ := forall₂_mem_right happ l hl
    rw [hx, List.length_append, hlens a ha]
    rfl
  refine ⟨?_, ?_, ?_, ?_, ?_, ?_, ?_, ?_, ?_⟩
  · show st.cash = 0
    exact hc
  · rw [heqs, hbals]
    exact hlast
  · rw [hbals]
    exact hdlen.1
  · show (dayUpdate pt.date cfg.activeStrategies st.lastPrices st.stratBalances
        st.stratEquities).2.1.length = cfg.activeStrategies.length
    exact hdlen.2.1
  · rw [heqs]
    exact hdlen.2.2
  · rw [hcomb]
    simp
  · intro l hl
    rw [heqs] at hl
    rw [hcomb, List.length_append]
    exact hlennew l hl
  · rw [heqs, ← hhead]
    have hf2 := forall₂_and_left_mem happ hlens
    have hforall : List.Forall₂ (fun (a b : List ℚ) => a.getD 0 0 = b.getD 0 0)
        st.stratEquities
        ((dayUpdate pt.date cfg.activeStrategies st.lastPrices
          st.stratBalances st.stratEquities).2.2.1) := by
      refine hf2.imp ?_
      rintro a b ⟨⟨x, rfl⟩, hla⟩
      rw [getD_append_left (by rw [hla]; exact List.length_pos.mpr hne)]
    exact (forall₂_map_eq hforall).symm
  · rw [hcomb, heqs]
    rw [List.length_append]
    rw [show (st.combined.length + ([(dayUpdate pt.date cfg.activeStrategies st.lastPrices
        st.stratBalances st.stratEquities).2.2.2 + st.cash] : List ℚ).length)
      = st.combined.length + 1 from rfl]
    rw [List.range_succ, List.map_append]
    have hpart1 : (List.range st.combined.length).map
        (fun t => (((dayUpdate pt.date cfg.activeStrategies st.lastPrices
          st.stratBalances st.stratEquities).2.2.1).map (fun l => l.getD t 0)).sum)
        = st.combined := by
      conv_rhs => rw [hcol]
      apply List.map_congr_left
      intro t ht
      rw [List.mem_range] at ht
      have hf2 := forall₂_and_left_mem happ hlens
      have : List.Forall₂ (fun (a b : List ℚ) => a.getD t 0 = b.getD t 0)
          st.stratEquities
          ((dayUpdate pt.date cfg.activeStrategies st.lastPrices
            st.stratBalances st.stratEquities).2.2.1) := by
        refine hf2.imp ?_
        rintro a b ⟨⟨x, rfl⟩, hla⟩
        rw [getD_append_left (by rw [hla]; exact ht)]
      exact (forall₂_sum_map this).symm
    have hpart2 : ([st.combined.length].map
        (fun t => (((dayUpdate pt.date cfg.activeStrategies st.lastPrices
          st.stratBalances st.stratEquities).2.2.1).map (fun l => l.getD t 0)).sum))
        = [(dayUpdate pt.date cfg.activeStrategies st.lastPrices
            st.stratBalances st.stratEquities).2.2.2 + st.cash] := by
      simp only [List.map_cons, List.map_nil]
      congr 1
      rw [show ((dayUpdate pt.date cfg.activeStrategies st.lastPrices
          st.stratBalances st.stratEquities).2.2.1).map
          (fun l => l.getD st.combined.length 0)
        = ((dayUpdate pt.date cfg.activeStrategies st.lastPrices
          st.stratBalances st.stratEquities).2.2.1).map (fun l => l.getLastD 0) from by
        apply List.map_congr_left
        intro l hl
        exact getD_at_pred (hlennew l hl)]
      rw [hlast, ← hdsum, hc, add_zero]
    rw [hpart1, hpart2]

/-- C5: for every run with rebalancing policy `none` whose active weights sum
to 1 (so the cash sleeve is 0), each independent per-strategy equity curve
starts at `initialBalance * weight`; the combined equity curve at every index
equals the sum over active strategies of those per-strategy curves at the
same index (exactly, in the rational-arithmetic model); and no reset of the
strategy balances to target weights ever occurs — the rebalancing trigger is
false on every simulated day. -/
theorem C5_buy_and_hold
    (rpow : ℚ → ℚ → ℚ) (sqrt : ℚ → ℚ) (strategies : List Strategy)
    (allocations : List (String × ℚ)) (initialBalance : ℚ)
    (spyData : Option (List (String × ℚ))) (tl : List TLPoint) (res : SimResult)
    (cfg : SimConfig)
    (hrun : simulation rpow sqrt strategies allocations initialBalance "none"
      spyData tl = some res)
    (hcfg : cfg = mkConfig strategies allocations "none" spyData
      (tl.headD defaultTLPoint).date initialBalance)
    (hsum1 : cfg.weights.sum = 1) :
    res.strategyEquities.map (fun l => l.getD 0 0)
        = cfg.weights.map (fun w => initialBalance * w)
    ∧ (∀ t, t < tl.length →
        res.combinedEquity.getD t 0
          = (res.strategyEquities.map (fun l => l.getD t 0)).sum)
    ∧ (∀ trig ∈ simTriggers cfg tl, trig = false) := by
  obtain ⟨t0, rest, rfl, hrlen, hcomb, hstrat, hdates⟩ := simulation_inv hrun
  have hc2 : cfg = mkConfig strategies allocations "none" spyData t0.date
      initialBalance := hcfg
  rw [← hc2] at hcomb hstrat
  have htw : cfg.totalAllocatedWeight = cfg.weights.sum := by
    rw [hc2]
    simp [mkConfig]
  have hwlen : cfg.weights.length = cfg.activeStrategies.length := by
    rw [hc2]
    exact mkConfig_weights_length strategies allocations "none" spyData t0.date
      initialBalance
  have hfreq : cfg.freq = "none" := by
    rw [hc2]
    rfl
  have htrig : ∀ st pt, stepTrigger cfg st pt = false := by
    intro st pt
    unfold stepTrigger
    rw [hfreq]
    rfl
  have hstepf : ∀ st pt, simStep cfg st pt = simStepCore cfg st pt false := by
    intro st pt
    rw [simStep_eq, htrig]
  have hstart : cfg.startBalance = initialBalance := by
    rw [hc2]
    rfl
  have hss : simStates cfg (t0 :: rest)
      = List.scanl (simStep cfg) (simInit cfg t0) rest := rfl
  have hinv : ∀ st ∈ simStates cfg (t0 :: rest), C5Inv cfg st := by
    rw [hss]
    refine scanl_invariant _ rest (simInit cfg t0)
      (simInit_c5inv htw hsum1 hwlen t0) ?_
    intro st a _ hP
    rw [hstepf]
    exact simStepCore_c5inv hP a
  have hfinmem : (simStates cfg (t0 :: rest)).getLastD (simInit cfg t0)
      ∈ simStates cfg (t0 :: rest) := by
    rw [hss]
    exact getLastD_mem (scanl_ne_nil _ _ _) _
  obtain ⟨hc0, heqb, hl1, hl2, hl3, hne, hlens, hhead, hcol⟩ := hinv _ hfinmem
  have hlenfin : ((simStates cfg (t0 :: rest)).getLastD
      (simInit cfg t0)).combined.length = rest.length + 1 := by
    rw [hss, scanl_getLastD_eq_getD]
    exact simStates_combined_length cfg t0 rest _ rest.length le_rfl
  refine ⟨?_, ?_, ?_⟩
  · rw [hstrat, hhead, hstart]
  · intro t ht
    simp only [List.length_cons] at ht
    rw [hcomb, hstrat, hcol, hlenfin, getD_range_map (by omega) 0]
  · intro trig htm
    rw [show simTriggers cfg (t0 :: rest)
        = ((simStates cfg (t0 :: rest)).zip rest).map
            (fun p => stepTrigger cfg p.1 p.2) from rfl] at htm
    rw [List.mem_map] at htm
    obtain ⟨p, _, rfl⟩ := htm
    exact htrig p.1 p.2

/-- Witness for C5: on the example scenario run with policy `none` (weights
50% + 50% = 1), the theorem evaluates the combined curve at day 1 to the sum
of the two strategy curves there, and the trigger list is concretely all
false. -/
theorem C5_buy_and_hold_witness :
    (simulation rpow0 sqrt0 [stratA, stratB] allocAB 100000 "none" none tlAB).map
        (fun r => r.combinedEquity.getD 1 0)
      = (simulation rpow0 sqrt0 [stratA, stratB] allocAB 100000 "none" none tlAB).map
        (fun r => (r.strategyEquities.map (fun l => l.getD 1 0)).sum)
    ∧ simTriggers (mkConfig [stratA, stratB] allocAB "none" none
        (tlAB.headD defaultTLPoint).date 100000) tlAB = [false, false, false] := by
  constructor
  · cases hsim : simulation rpow0 sqrt0 [stratA, stratB] allocAB 100000 "none" none tlAB with
    | none =>
      have hs : (simulation rpow0 sqrt0 [stratA, stratB] allocAB 100000 "none" none
          tlAB).isSome = true := rfl
      rw [hsim] at hs
      simp at hs
    | some res =>
      have h := C5_buy_and_hold rpow0 sqrt0 [stratA, stratB] allocAB 100000
        none tlAB res _ hsim rfl
        (by rw [show (mkConfig [stratA, stratB] allocAB "none" none
              (tlAB.headD defaultTLPoint).date 100000).weights
            = [50 / 100, 50 / 100] from rfl]
            norm_num)
      simp only [Option.map_some']
      exact congrArg some (h.2.1 1 (by decide))
  · rfl

/-! ### C6: the concrete example scenario -/

theorem tlAB_entries : tlAB = [⟨"2020-01-01", 0, 2020⟩, ⟨"2020-01-02", 0, 2020⟩,
    ⟨"2020-01-03", 0, 2020⟩, ⟨"2020-01-04", 0, 2020⟩] := rfl

theorem cfgAB_weights_eq : cfgAB.weights = [50 / 100, 50 / 100] := rfl

theorem cfgAB_total_weight_eq : cfgAB.totalAllocatedWeight = 50 / 100 + (50 / 100 + 0) := rfl

theorem cfgAB_active_eq : cfgAB.activeStrategies = [stratA, stratB] := rfl

theorem cfgAB_start_eq : cfgAB.startBalance = 100000 := rfl

theorem cfgAB_spy_eq : cfgAB.spyData = none := rfl

theorem initLastPrice_stratA : initLastPrice "2020-01-01" stratA = 1000 := rfl

theorem initLastPrice_stratB : initLastPrice "2020-01-01" stratB = 100 := rfl

theorem example_day0 : simInit cfgAB ⟨"2020-01-01", 0, 2020⟩
    = ⟨[50000, 50000], 0, [1000, 100], [100000], [100],
       [[50000], [50000]], [], 0, 0, 2020⟩ := by
  unfold simInit
  simp only [SimState.mk.injEq]
  norm_num [cfgAB_weights_eq, cfgAB_total_weight_eq, cfgAB_active_eq, cfgAB_start_eq, initLastPrice_stratA, initLastPrice_stratB,
    show cfgAB.spyStart = 0 from rfl]

theorem stratA_price2 : jsMapGet stratA.data "2020-01-02" = some 1100 := rfl

theorem stratB_price2 : jsMapGet stratB.data "2020-01-02" = some 100 := rfl

theorem example_update1 : dayUpdate "2020-01-02" [stratA, stratB] [1000, 100]
    [50000, 50000] [[50000], [50000]]
    = ([55000, 50000], [1100, 100], [[50000, 55000], [50000, 50000]], 105000) := by
  norm_num [dayUpdate, stratA_price2, stratB_price2, List.getLastD]

theorem example_day1 : simStep cfgAB
    ⟨[50000, 50000], 0, [1000, 100], [100000], [100],
     [[50000], [50000]], [], 0, 0, 2020⟩ ⟨"2020-01-02", 0, 2020⟩
    = ⟨[52500, 52500], 0, [1100, 100], [100000, 105000], [100, 105],
       [[50000, 55000], [50000, 50000]], [], 0, 0, 2020⟩ := by
  rw [simStep_eq, show stepTrigger cfgAB
    ⟨[50000, 50000], 0, [1000, 100], [100000], [100],
     [[50000], [50000]], [], 0, 0, 2020⟩ ⟨"2020-01-02", 0, 2020⟩ = true from rfl]
  unfold simStepCore
  dsimp only
  rw [cfgAB_active_eq, cfgAB_spy_eq, example_update1]
  simp only [SimState.mk.injEq]
  norm_num [cfgAB_weights_eq, cfgAB_total_weight_eq, List.getLastD]

theorem stratA_price3 : jsMapGet stratA.data "2020-01-03" = some 990 := rfl

theorem stratB_price3 : jsMapGet stratB.data "2020-01-03" = some 100 := rfl

theorem stratA_price4 : jsMapGet stratA.data "2020-01-04" = some 1089 := rfl

theorem stratB_price4 : jsMapGet stratB.data "2020-01-04" = some 100 := rfl

theorem example_update2 : dayUpdate "2020-01-03" [stratA, stratB] [1100, 100]
    [52500, 52500] [[50000, 55000], [50000, 50000]]
    = ([47250, 52500], [990, 100],
       [[50000, 55000, 49500], [50000, 50000, 50000]], 99750) := by
  norm_num [dayUpdate, stratA_price3, stratB_price3, List.getLastD]

theorem example_day2 : simStep cfgAB
    ⟨[52500, 52500], 0, [1100, 100], [100000, 105000], [100, 105],
     [[50000, 55000], [50000, 50000]], [], 0, 0, 2020⟩ ⟨"2020-01-03", 0, 2020⟩
    = ⟨[49875, 49875], 0, [990, 100], [100000, 105000, 99750], [100, 105, 399 / 4],
       [[50000, 55000, 49500], [50000, 50000, 50000]], [], 0, 0, 2020⟩ := by
  rw [simStep_eq, show stepTrigger cfgAB
    ⟨[52500, 52500], 0, [1100, 100], [100000, 105000], [100, 105],
     [[50000, 55000], [50000, 50000]], [], 0, 0, 2020⟩ ⟨"2020-01-03", 0, 2020⟩
      = true from rfl]
  unfold simStepCore
  dsimp only
  rw [cfgAB_active_eq, cfgAB_spy_eq, example_update2]
  simp only [SimState.mk.injEq]
  norm_num [cfgAB_weights_eq, cfgAB_total_weight_eq, List.getLastD]

theorem example_update3 : dayUpdate "2020-01-04" [stratA, stratB] [990, 100]
    [49875, 49875] [[50000, 55000, 49500], [50000, 50000, 50000]]
    = ([109725 / 2, 49875], [1089, 100],
       [[50000, 55000, 49500, 54450], [50000, 50000, 50000, 50000]], 209475 / 2) := by
  norm_num [dayUpdate, stratA_price4, stratB_price4, List.getLastD]

theorem example_day3 : simStep cfgAB
    ⟨[49875, 49875], 0, [990, 100], [100000, 105000, 99750], [100, 105, 399 / 4],
     [[50000, 55000, 49500], [50000, 50000, 50000]], [], 0, 0, 2020⟩ ⟨"2020-01-04", 0, 2020⟩
    = ⟨[209475 / 4, 209475 / 4], 0, [1089, 100], [100000, 105000, 99750, 209475 / 2],
       [100, 105, 399 / 4, 8379 / 80],
       [[50000, 55000, 49500, 54450], [50000, 50000, 50000, 50000]], [], 0, 0, 2020⟩ := by
  rw [simStep_eq, show stepTrigger cfgAB
    ⟨[49875, 49875], 0, [990, 100], [100000, 105000, 99750], [100, 105, 399 / 4],
     [[50000, 55000, 49500], [50000, 50000, 50000]], [], 0, 0, 2020⟩ ⟨"2020-01-04", 0, 2020⟩
      = true from rfl]
  unfold simStepCore
  dsimp only
  rw [cfgAB_active_eq, cfgAB_spy_eq, example_update3]
  simp only [SimState.mk.injEq]
  norm_num [cfgAB_weights_eq, cfgAB_total_weight_eq, List.getLastD]

/-- C6: on the concrete input of strategies A (daily returns +10%, −10%,
+10%) and B (always 0%), weights 50%/50%, initial balance 100000, policy
`daily`, the simulation yields exactly the combined curve
100000, 105000, 99750, 104737.5; the day-0 balances are 50000/50000 with
cash 0; day 1 totals 105000 and rebalances to 52500/52500; day 2 totals
99750 and rebalances to 49875/49875; and on day 3 strategy A's drifted
balance before the rebalance is 54862.5 (= 109725/2). -/
theorem C6_example_scenario :
    (simulation rpow0 sqrt0 [stratA, stratB] allocAB 100000 "daily" none tlAB).map
        (fun r => r.combinedEquity) = some [100000, 105000, 99750, 209475 / 2]
    ∧ ((simStates cfgAB tlAB).getD 0 (simInit cfgAB defaultTLPoint)).stratBalances
        = [50000, 50000]
    ∧ ((simStates cfgAB tlAB).getD 0 (simInit cfgAB defaultTLPoint)).cash = 0
    ∧ ((simStates cfgAB tlAB).getD 1 (simInit cfgAB defaultTLPoint)).combined.getLastD 0
        = 105000
    ∧ ((simStates cfgAB tlAB).getD 1 (simInit cfgAB defaultTLPoint)).stratBalances
        = [52500, 52500]
    ∧ ((simStates cfgAB tlAB).getD 2 (simInit cfgAB defaultTLPoint)).combined.getLastD 0
        = 99750
    ∧ ((simStates cfgAB tlAB).getD 2 (simInit cfgAB defaultTLPoint)).stratBalances
        = [49875, 49875]
    ∧ (dayUpdate "2020-01-04" cfgAB.activeStrategies
          ((simStates cfgAB tlAB).getD 2 (simInit cfgAB defaultTLPoint)).lastPrices
          ((simStates cfgAB tlAB).getD 2 (simInit cfgAB defaultTLPoint)).stratBalances
          ((simStates cfgAB tlAB).getD 2 (simInit cfgAB defaultTLPoint)).stratEquities).1.getD 0 0
        = 109725 / 2
    ∧ ((simStates cfgAB tlAB).getD 3 (simInit cfgAB defaultTLPoint)).combined.getLastD 0
        = 209475 / 2 := by
  have hS0 : ∀ d : SimState,
      (List.scanl (simStep cfgAB) (simInit cfgAB ⟨"2020-01-01", 0, 2020⟩)
        [⟨"2020-01-02", 0, 2020⟩, ⟨"2020-01-03", 0, 2020⟩,
         ⟨"2020-01-04", 0, 2020⟩]).getD 0 d
      = ⟨[50000, 50000], 0, [1000, 100], [100000], [100],
         [[50000], [50000]], [], 0, 0, 2020⟩ := by
    intro d
    rw [scanl_getD_zero, example_day0]
  have hS1 : ∀ d : SimState,
      (List.scanl (simStep cfgAB) (simInit cfgAB ⟨"2020-01-01", 0, 2020⟩)
        [⟨"2020-01-02", 0, 2020⟩, ⟨"2020-01-03", 0, 2020⟩,
         ⟨"2020-01-04", 0, 2020⟩]).getD 1 d
      = ⟨[52500, 52500], 0, [1100, 100], [100000, 105000], [100, 105],
         [[50000, 55000], [50000, 50000]], [], 0, 0, 2020⟩ := by
    intro d
    rw [scanl_getD_succ (simStep cfgAB) _ d ⟨"2020-01-02", 0, 2020⟩ _ 0 (by norm_num),
      hS0 d, show ([⟨"2020-01-02", 0, 2020⟩, ⟨"2020-01-03", 0, 2020⟩,
        ⟨"2020-01-04", 0, 2020⟩] : List TLPoint).getD 0 ⟨"2020-01-02", 0, 2020⟩
        = ⟨"2020-01-02", 0, 2020⟩ from rfl, example_day1]
  have hS2 : ∀ d : SimState,
      (List.scanl (simStep cfgAB) (simInit cfgAB ⟨"2020-01-01", 0, 2020⟩)
        [⟨"2020-01-02", 0, 2020⟩, ⟨"2020-01-03", 0, 2020⟩,
         ⟨"2020-01-04", 0, 2020⟩]).getD 2 d
      = ⟨[49875, 49875], 0, [990, 100], [100000, 105000, 99750], [100, 105, 399 / 4],
         [[50000, 55000, 49500], [50000, 50000, 50000]], [], 0, 0, 2020⟩ := by
    intro d
    rw [scanl_getD_succ (simStep cfgAB) _ d ⟨"2020-01-02", 0, 2020⟩ _ 1 (by norm_num),
      hS1 d, show ([⟨"2020-01-02", 0, 2020⟩, ⟨"2020-01-03", 0, 2020⟩,
        ⟨"2020-01-04", 0, 2020⟩] : List TLPoint).getD 1 ⟨"2020-01-02", 0, 2020⟩
        = ⟨"2020-01-03", 0, 2020⟩ from rfl, example_day2]
  have hS3 : ∀ d : SimState,
      (List.scanl (simStep cfgAB) (simInit cfgAB ⟨"2020-01-01", 0, 2020⟩)
        [⟨"2020-01-02", 0, 2020⟩, ⟨"2020-01-03", 0, 2020⟩,
         ⟨"2020-01-04", 0, 2020⟩]).getD 3 d
      = ⟨[209475 / 4, 209475 / 4], 0, [1089, 100], [100000, 105000, 99750, 209475 / 2],
         [100, 105, 399 / 4, 8379 / 80],
         [[50000, 55000, 49500, 54450], [50000, 50000, 50000, 50000]], [], 0, 0, 2020⟩ := by
    intro d
    rw [scanl_getD_succ (simStep cfgAB) _ d ⟨"2020-01-02", 0, 2020⟩ _ 2 (by norm_num),
      hS2 d, show ([⟨"2020-01-02", 0, 2020⟩, ⟨"2020-01-03", 0, 2020⟩,
        ⟨"2020-01-04", 0, 2020⟩] : List TLPoint).getD 2 ⟨"2020-01-02", 0, 2020⟩
        = ⟨"2020-01-04", 0, 2020⟩ from rfl, example_day3]
  have hT : ∀ i : ℕ, (simStates cfgAB tlAB).getD i (simInit cfgAB defaultTLPoint)
      = (List.scanl (simStep cfgAB) (simInit cfgAB ⟨"2020-01-01", 0, 2020⟩)
        [⟨"2020-01-02", 0, 2020⟩, ⟨"2020-01-03", 0, 2020⟩,
         ⟨"2020-01-04", 0, 2020⟩]).getD i (simInit cfgAB defaultTLPoint) := by
    intro i
    rw [tlAB_entries]
    rfl
  refine ⟨?_, ?_, ?_, ?_, ?_, ?_, ?_, ?_, ?_⟩
  · cases hsim : simulation rpow0 sqrt0 [stratA, stratB] allocAB 100000 "daily" none tlAB with
    | none =>
      have hs : (simulation rpow0 sqrt0 [stratA, stratB] allocAB 100000 "daily" none
          tlAB).isSome = true := rfl
      rw [hsim] at hs
      simp at hs
    | some res =>
      obtain ⟨t0, rest, heq, hrlen, hcomb, hstrat, hdates⟩ := simulation_inv hsim
      rw [tlAB_entries] at heq
      injection heq with h1 h2
      subst h1
      subst h2
      rw [show mkConfig [stratA, stratB] allocAB "daily" none
          (⟨"2020-01-01", 0, 2020⟩ : TLPoint).date 100000 = cfgAB from rfl] at hcomb
      rw [tlAB_entries] at hcomb
      rw [show simStates cfgAB [⟨"2020-01-01", 0, 2020⟩, ⟨"2020-01-02", 0, 2020⟩,
          ⟨"2020-01-03", 0, 2020⟩, ⟨"2020-01-04", 0, 2020⟩]
        = List.scanl (simStep cfgAB) (simInit cfgAB ⟨"2020-01-01", 0, 2020⟩)
          [⟨"2020-01-02", 0, 2020⟩, ⟨"2020-01-03", 0, 2020⟩,
           ⟨"2020-01-04", 0, 2020⟩] from rfl, scanl_getLastD_eq_getD] at hcomb
      rw [show ([⟨"2020-01-02", 0, 2020⟩, ⟨"2020-01-03", 0, 2020⟩,
          ⟨"2020-01-04", 0, 2020⟩] : List TLPoint).length = 3 from rfl, hS3] at hcomb
      simp only [Option.map_some']
      rw [hcomb]
  · rw [hT 0, hS0]
  · rw [hT 0, hS0]
  · rw [hT 1, hS1]
    rfl
  · rw [hT 1, hS1]
  · rw [hT 2, hS2]
    rfl
  · rw [hT 2, hS2]
  · rw [hT 2, hS2, cfgAB_active_eq]
    rw [show ((⟨[49875, 49875], 0, [990, 100], [100000, 105000, 99750],
        [100, 105, 399 / 4], [[50000, 55000, 49500], [50000, 50000, 50000]],
        [], 0, 0, 2020⟩ : SimState)).lastPrices = [990, 100] from rfl]
    rw [example_update3]
    rfl
  · rw [hT 3, hS3]
    rfl
